import Mathlib

/-!
Verification of the LegalLens document-intelligence pipeline.

This file gives a shallow embedding, in Lean 4, of the parts of the
LegalLens backend that the specification talks about:

* `backend/utils/fileStorage.js` — the content store (`saveDocumentContent`,
  `getDocumentContent`, `removeDocumentContent`, `removeUserFile`);
* `backend/utils/rag.js` — the chunk indexer and retriever
  (`buildIndex`, `loadIndex`, `retrieveTopK`);
* `backend/routes/documents.js` — the summarizer (`checkRateLimit`,
  `generateExtractiveSummary`, `generateSummary`), the answerer
  (`generateExtractiveAnswer`, `askQuestion`) and the `GET /:id/content`
  and `POST /:id/ask` route handlers;
* `backend/utils/helpers.js` — the text extractor (`extractTextFromFile`).

Modelling conventions:

* JavaScript strings are modelled as `List Char` (named `Str` below), so
  the character-level algorithms (regex splits, trimming, scoring) can be
  written as structurally recursive functions and evaluated by `decide`.
* JavaScript numbers used for scores are modelled as exact rationals `ℚ`.
  The scores appearing in the source are small sums of integers, fifths
  and eighteenths; the double-precision rounding of the source cannot
  change any comparison the theorems below depend on.
* `Map`s and on-disk files are modelled as association lists; the process
  state mutated by the source is threaded explicitly through each
  operation.
* External capabilities (the generative model, the embedding-based
  similarity search, pdf/docx parsers, network fetches) are parameters of
  the functions that call them, as the spec treats them as pluggable
  collaborators.
-/

namespace LegalLens

/-- JavaScript strings, modelled as lists of characters. -/
abbrev Str := List Char

/-- Coerce a Lean string literal into the `List Char` model. -/
def str (s : String) : Str := s.data

/-- The characters matched by the JavaScript regex class `\s`
(space, tab, newline, carriage return, vertical tab, form feed). -/
def jsIsWs (c : Char) : Bool :=
  c == ' ' || c == '\t' || c == '\n' || c == '\r' || c == '\x0b' || c == '\x0c'

/-- Sentence-terminal punctuation, the class `[.!?]`. -/
def isTermPunct (c : Char) : Bool :=
  c == '.' || c == '!' || c == '?'

/-- The punctuation class `[.,;:!?]` used by the summary normalizer. -/
def isClosePunct (c : Char) : Bool :=
  c == '.' || c == ',' || c == ';' || c == ':' || c == '!' || c == '?'

/-- `String.prototype.trim`: drop whitespace from both ends. -/
def trimStr (l : Str) : Str :=
  ((l.dropWhile jsIsWs).reverse.dropWhile jsIsWs).reverse

/-- `String.prototype.toLowerCase` (ASCII case folding suffices for the
inputs of this development). -/
def lowerStr (l : Str) : Str := l.map Char.toLower

/-- Does `needle` occur at the start of `hay`? (`String.startsWith`.) -/
def startsWithStr : Str → Str → Bool
  | [], _ => true
  | _ :: _, [] => false
  | a :: as, b :: bs => a == b && startsWithStr as bs

/-- `String.prototype.includes`: substring occurrence. -/
def containsSub (needle hay : Str) : Bool :=
  hay.tails.any (fun t => startsWithStr needle t)

/-- Replace every maximal run of characters satisfying `p` by the single
character `rep` (the effect of `replace(/X+/g, c)` for a character class
`X`). The boolean records whether the previous character was in a run. -/
def collapseRunsGo (p : Char → Bool) (rep : Char) : Bool → Str → Str
  | _, [] => []
  | inRun, c :: cs =>
    if p c then
      if inRun then collapseRunsGo p rep true cs
      else rep :: collapseRunsGo p rep true cs
    else c :: collapseRunsGo p rep false cs

/-- `s.replace(/\s+/g, ' ')`. -/
def collapseWs (l : Str) : Str := collapseRunsGo jsIsWs ' ' false l

/-- `s.replace(/[\r\n]+/g, ' ')`. -/
def collapseNl (l : Str) : Str :=
  collapseRunsGo (fun c => c == '\r' || c == '\n') ' ' false l

/-- Worker for `split(/\s+/)`: `inRun` is true while consuming a
whitespace run whose first character already flushed the current token. -/
def jsSplitWsGo : Bool → Str → Str → List Str
  | _, cur, [] => [cur.reverse]
  | inRun, cur, c :: cs =>
    if jsIsWs c then
      if inRun then jsSplitWsGo true cur cs
      else cur.reverse :: jsSplitWsGo true [] cs
    else jsSplitWsGo false (c :: cur) cs

/-- `s.split(/\s+/)`: split at maximal whitespace runs.  As in
JavaScript, a leading or trailing run contributes an empty token. -/
def jsSplitWs (l : Str) : List Str := jsSplitWsGo false [] l

/-- Worker for `split(/(?<=[.!?])\s+/)`: split at whitespace runs whose
first character is immediately preceded by `.`, `!` or `?`; the matched
run is consumed greedily (`skipWs` true while inside it). -/
def splitSentencesGo : Bool → Str → Str → List Str
  | _, cur, [] => [cur.reverse]
  | skipWs, cur, c :: cs =>
    if skipWs && jsIsWs c then splitSentencesGo true cur cs
    else if jsIsWs c && (match cur with | p :: _ => isTermPunct p | [] => false) then
      cur.reverse :: splitSentencesGo true [] cs
    else splitSentencesGo false (c :: cur) cs

/-- `s.split(/(?<=[.!?])\s+/)`: the sentence splitter used by both
extractive algorithms. -/
def splitSentences (l : Str) : List Str := splitSentencesGo false [] l

/-- `s.replace(/\s([.,;:!?])/g, '$1')`: drop a whitespace character that
immediately precedes closing punctuation; scanning resumes after the
punctuation character, as the JavaScript global replace does. -/
def mergePunct : Str → Str
  | [] => []
  | [a] => [a]
  | a :: b :: rest =>
    if jsIsWs a && isClosePunct b then b :: mergePunct rest
    else a :: mergePunct (b :: rest)

/-- `Array.prototype.join(' ')`. -/
def joinWords : List Str → Str
  | [] => []
  | [w] => w
  | w :: w' :: rest => w ++ ' ' :: joinWords (w' :: rest)

/-- `Array.prototype.join('\n\n')` (used for retrieved chunk context). -/
def joinBlankLine : List Str → Str
  | [] => []
  | [w] => w
  | w :: w' :: rest => w ++ '\n' :: '\n' :: joinBlankLine (w' :: rest)

/-- `/[.!?]$/.test s`: does the string end with terminal punctuation? -/
def endsWithTerm (l : Str) : Bool :=
  match l.getLast? with
  | some c => isTermPunct c
  | none => false

/-- Word counter used to state the word-budget property: the number of
maximal runs of non-whitespace characters.  `inWord` tracks whether the
previous character was part of a word. -/
def wcAux : Bool → Str → Nat
  | _, [] => 0
  | inWord, c :: cs =>
    if jsIsWs c then wcAux false cs
    else if inWord then wcAux true cs
    else 1 + wcAux true cs

/-- Number of whitespace-separated words in a string. -/
def wordCount (l : Str) : Nat := wcAux false l

/-! ### Association-list maps

`Map` objects and per-path disk files are modelled as association lists;
`setA` replaces the first binding of the key (as `Map.set` does) and
appends otherwise, `eraseA` removes the binding (as `Map.delete`). -/

/-- Lookup in an association list (`Map.get`). -/
def lookupA {β : Type} : List (Str × β) → Str → Option β
  | [], _ => none
  | (k, v) :: rest, key => if k = key then some v else lookupA rest key

/-- `Map.set`: replace the first binding or append a new one. -/
def setA {β : Type} : List (Str × β) → Str → β → List (Str × β)
  | [], key, v => [(key, v)]
  | (k, w) :: rest, key, v =>
    if k = key then (key, v) :: rest else (k, w) :: setA rest key v

/-- `Map.delete`: remove every binding of the key. -/
def eraseA {β : Type} : List (Str × β) → Str → List (Str × β)
  | [], _ => []
  | (k, w) :: rest, key =>
    if k = key then eraseA rest key else (k, w) :: eraseA rest key

/-- `Map.has`. -/
def hasA {β : Type} (m : List (Str × β)) (key : Str) : Bool :=
  (lookupA m key).isSome

/-! ### Extractive summarizer (`documents.js`, `generateExtractiveSummary`)

Sentence scores are JavaScript numbers; they are modelled as exact
rationals.  Every score is a sum of an even natural number, at most one
eighteenth-multiple bounded by 1, and a fifth, so exact comparison agrees
with the double-precision comparison performed by the source for these
values. -/

/-- A sentence together with its index and score, the element shape of
the `scored` array in the source. -/
structure ScoredSentence where
  s : Str
  idx : Nat
  score : ℚ
  deriving DecidableEq

/-- Stable insertion of an element into a list sorted by descending
score: the element goes after every earlier element of greater-or-equal
score, as JavaScript's stable `sort((a, b) => b.score - a.score)` keeps
equal-scored elements in input order. -/
def insertDescScore (x : ScoredSentence) : List ScoredSentence → List ScoredSentence
  | [] => [x]
  | y :: ys => if y.score < x.score then x :: y :: ys else y :: insertDescScore x ys

/-- `arr.sort((a, b) => b.score - a.score)`: stable descending sort. -/
def sortDescScore (l : List ScoredSentence) : List ScoredSentence :=
  l.foldl (fun acc x => insertDescScore x acc) []

/-- The `priorityKeywords` array of `generateExtractiveSummary`. -/
def priorityKeywords : List Str :=
  [str "obligation", str "obligations", str "right", str "rights",
   str "responsibility", str "responsibilities", str "payment", str "fee",
   str "fees", str "deadline", str "date", str "term", str "termination",
   str "expire", str "expiry", str "renewal", str "notice", str "liability",
   str "indemnity", str "confidential", str "confidentiality", str "privacy",
   str "data", str "scope", str "deliverable", str "deliverables",
   str "service", str "services", str "warranty", str "warranties",
   str "governing law", str "jurisdiction", str "dispute", str "arbitration",
   str "compliance", str "breach", str "penalty"]

/-- The fixed neutral message returned on blank input (and by the
unreachable `catch` branch) of `generateExtractiveSummary`. -/
def neutralSummaryMsg : Str :=
  str "Document processed successfully. Summary not available."

/-- Score one sentence: keyword hits weighted double, a length preference
`min(words / 18, 1)`, and a `0.2` boost for the first and last sentence. -/
def scoreSentence (total : Nat) (idx : Nat) (s : Str) : ScoredSentence :=
  let lower := lowerStr s
  let words := (jsSplitWs s).length
  let keywordHits := priorityKeywords.countP (fun kw => containsSub kw lower)
  let lengthScore : ℚ := min ((words : ℚ) / 18) 1
  let positionBoost : ℚ := if idx = 0 then 1/5 else if idx = total - 1 then 1/5 else 0
  { s := s, idx := idx, score := (keywordHits : ℚ) * 2 + lengthScore + positionBoost }

/-- The bucket-selection loop: for each of the 6 positional buckets take
the top-scored sentence of the bucket, skipping buckets beyond the end. -/
def selectBuckets (scored : List ScoredSentence) (total bucketCount bucketSize : Nat) :
    List Str :=
  (List.range bucketCount).foldl
    (fun selected b =>
      let start := b * bucketSize
      if total ≤ start then selected
      else
        let stop := min total (start + bucketSize)
        match sortDescScore ((scored.drop start).take (stop - start)) with
        | [] => selected
        | top :: _ => selected ++ [top.s])
    []

/-- The `for (const s of globalTop)` loop: append globally top-scored
sentences not already selected until the cap `bucketCount + 2` is hit. -/
def appendGlobalTop (cap : Nat) : List Str → List Str → List Str
  | selected, [] => selected
  | selected, s :: rest =>
    if selected.contains s then appendGlobalTop cap selected rest
    else
      let selected' := selected ++ [s]
      if cap ≤ selected'.length then selected'
      else appendGlobalTop cap selected' rest

/-- Inner word loop: push words of one sentence until the budget is hit. -/
def pushWords (targetWords : Nat) : List Str → List Str → List Str
  | acc, [] => acc
  | acc, w :: ws =>
    if targetWords ≤ acc.length then acc
    else pushWords targetWords (acc ++ [w]) ws

/-- Outer sentence loop of the word-budget composition. -/
def budgetWords (targetWords : Nat) : List Str → List Str → List Str
  | acc, [] => acc
  | acc, s :: rest =>
    let acc' := pushWords targetWords acc (jsSplitWs s)
    if targetWords ≤ acc'.length then acc'
    else budgetWords targetWords acc' rest

/-- The trimmed sentences of length above 20 the summarizer scores. -/
def summarySentences (cleaned : Str) : List Str :=
  ((splitSentences cleaned).map trimStr).filter (fun s => 20 < s.length)

/-- The sentence-selection stage: score, pick per-bucket winners, then
append globally top-scored sentences up to the cap of `6 + 2`. -/
def summarySelected (cleaned : Str) : List Str :=
  let sentences := summarySentences cleaned
  let scored := sentences.enum.map (fun p => scoreSentence sentences.length p.1 p.2)
  let bucketCount := 6
  let bucketSize := (sentences.length + bucketCount - 1) / bucketCount
  let selected := selectBuckets scored sentences.length bucketCount bucketSize
  let globalTop := (sortDescScore scored).map (fun x => x.s)
  appendGlobalTop (bucketCount + 2) selected globalTop

/-- The composition stage: concatenate the selected sentences word by
word up to the budget, join with spaces, normalize spacing and
punctuation, and force terminal punctuation. -/
def composeSummary (targetWords : Nat) (selected : List Str) : Str :=
  let words := budgetWords targetWords [] selected
  let paragraph := mergePunct (collapseWs (joinWords words))
  if endsWithTerm paragraph then paragraph else paragraph ++ ['.']

/-- `generateExtractiveSummary(text, targetWords = 180)` from
`documents.js`.  The source wraps the body in `try`/`catch` returning the
neutral message; every operation of this model is total, so only the
blank-input early return can produce the neutral message here.  The
source's second normalization `replace(/[\r\n]+/g, ' ')` runs after all
whitespace runs (including `\r`/`\n`) were already replaced by single
spaces; it is kept for fidelity although it is the identity there. -/
def generateExtractiveSummary (text : Str) (targetWords : Nat := 180) : Str :=
  let cleaned := trimStr (collapseNl (collapseWs text))
  if cleaned = [] then neutralSummaryMsg
  else composeSummary targetWords (summarySelected cleaned)

/-! ### Extractive answerer (`documents.js`, `generateExtractiveAnswer`)

The date and amount patterns of the source are regular expressions; they
are implemented below as direct scanners with the same greedy,
backtracking behaviour on the alternations that matter (digit counts and
the optional comma). -/

/-- The regex word-character class `\w` = `[A-Za-z0-9_]`. -/
def isWordChar (c : Char) : Bool := c.isAlpha || c.isDigit || c == '_'

/-- Case-insensitive prefix test against an already-lowercased needle. -/
def startsWithCI : Str → Str → Bool
  | [], _ => true
  | _ :: _, [] => false
  | a :: as, b :: bs => a == b.toLower && startsWithCI as bs

/-- Take exactly `n` leading digits, or fail. -/
def takeDigits (n : Nat) (l : Str) : Option (Str × Str) :=
  let pre := l.take n
  if pre.length = n && pre.all Char.isDigit then some (pre, l.drop n) else none

/-- Match `\s+` greedily (at least one whitespace character). -/
def matchWsRun (l : Str) : Option (Str × Str) :=
  match l with
  | c :: _ => if jsIsWs c then some (l.takeWhile jsIsWs, l.dropWhile jsIsWs) else none
  | [] => none

/-- Month spellings, in the attempt order of the source alternation
`Jan(?:uary)?|...|Sep(?:t|tember)?|...` (greedy optional groups first). -/
def monthCandidates : List (List Str) :=
  [[str "january", str "jan"], [str "february", str "feb"],
   [str "march", str "mar"], [str "april", str "apr"], [str "may"],
   [str "june", str "jun"], [str "july", str "jul"],
   [str "august", str "aug"], [str "sept", str "september", str "sep"],
   [str "october", str "oct"], [str "november", str "nov"],
   [str "december", str "dec"]]

/-- Continuation `\s+\d{1,2},?\s+\d{4}` after a month name, with the
greedy two-digit day and greedy optional comma tried first. -/
def monthCont (l : Str) : Option (Str × Str) :=
  (matchWsRun l).bind fun w1r =>
    let tryDay (dcount : Nat) : Option (Str × Str) :=
      (takeDigits dcount w1r.2).bind fun dr =>
        let withComma : Option (Str × Str) :=
          match dr.2 with
          | ',' :: r3 =>
            (matchWsRun r3).bind fun w2r =>
              (takeDigits 4 w2r.2).map fun yr =>
                (dr.1 ++ [','] ++ w2r.1 ++ yr.1, yr.2)
          | _ => none
        let noComma : Option (Str × Str) :=
          (matchWsRun dr.2).bind fun w2r =>
            (takeDigits 4 w2r.2).map fun yr => (dr.1 ++ w2r.1 ++ yr.1, yr.2)
        withComma <|> noComma
    (tryDay 2 <|> tryDay 1).map fun tr => (w1r.1 ++ tr.1, tr.2)

/-- The month-name date alternative of `dateRegex`, attempted at the head
of `l` (the leading `\b` is checked by the caller). -/
def matchMonthDate (l : Str) : Option (Str × Str) :=
  monthCandidates.findSome? fun cands =>
    cands.findSome? fun name =>
      if startsWithCI name l then
        (monthCont (l.drop name.length)).map fun tr =>
          (l.take name.length ++ tr.1, tr.2)
      else none

/-- A `/` or `-` date separator. -/
def matchDateSep (l : Str) : Option (Char × Str) :=
  match l with
  | c :: cs => if c == '/' || c == '-' then some (c, cs) else none
  | [] => none

/-- Is the position after a match a `\b` boundary (end or non-word)? -/
def atWordEnd (l : Str) : Bool :=
  match l with
  | [] => true
  | c :: _ => !isWordChar c

/-- The alternative `\b\d{1,2}[\/\-]\d{1,2}[\/\-]\d{2,4}\b`, greedy digit
counts first. -/
def matchSlashDate (l : Str) : Option (Str × Str) :=
  let tryCounts (a b c : Nat) : Option (Str × Str) :=
    (takeDigits a l).bind fun r1 =>
      (matchDateSep r1.2).bind fun s1 =>
        (takeDigits b s1.2).bind fun r2 =>
          (matchDateSep r2.2).bind fun s2 =>
            (takeDigits c s2.2).bind fun r3 =>
              if atWordEnd r3.2 then
                some (r1.1 ++ [s1.1] ++ r2.1 ++ [s2.1] ++ r3.1, r3.2)
              else none
  ([2, 1].flatMap fun a => [2, 1].flatMap fun b => [4, 3, 2].map fun c => (a, b, c)).findSome?
    fun t => tryCounts t.1 t.2.1 t.2.2

/-- The alternative `\b\d{4}[\/\-]\d{1,2}[\/\-]\d{1,2}\b`. -/
def matchIsoDate (l : Str) : Option (Str × Str) :=
  let tryCounts (b c : Nat) : Option (Str × Str) :=
    (takeDigits 4 l).bind fun r1 =>
      (matchDateSep r1.2).bind fun s1 =>
        (takeDigits b s1.2).bind fun r2 =>
          (matchDateSep r2.2).bind fun s2 =>
            (takeDigits c s2.2).bind fun r3 =>
              if atWordEnd r3.2 then
                some (r1.1 ++ [s1.1] ++ r2.1 ++ [s2.1] ++ r3.1, r3.2)
              else none
  ([2, 1].flatMap fun b => [2, 1].map fun c => (b, c)).findSome?
    fun t => tryCounts t.1 t.2

/-- One attempt of `dateRegex` at the head of `l`, alternatives in source
order. -/
def tryDateAt (l : Str) : Option (Str × Str) :=
  matchMonthDate l <|> matchSlashDate l <|> matchIsoDate l

/-- `matchAll(dateRegex)` scanning: attempt at each position whose left
side is a `\b` boundary, resuming after each match; `fuel` bounds the
recursion and one unit is spent per consumed character, so `l.length`
suffices. -/
def findAllDatesGo : Nat → Bool → Str → List Str
  | 0, _, _ => []
  | _ + 1, _, [] => []
  | fuel + 1, prevWord, c :: cs =>
    if prevWord then findAllDatesGo fuel (isWordChar c) cs
    else
      match tryDateAt (c :: cs) with
      | some mr =>
        mr.1 :: findAllDatesGo fuel
          (match mr.1.getLast? with | some d => isWordChar d | none => false) mr.2
      | none => findAllDatesGo fuel (isWordChar c) cs

/-- All matches of `dateRegex` in a string, in order. -/
def findAllDates (l : Str) : List Str := findAllDatesGo l.length false l

/-- `[\d,]+` greedily. -/
def matchDigitComma (l : Str) : Option (Str × Str) :=
  match l with
  | c :: _ =>
    if c.isDigit || c == ',' then
      some (l.takeWhile (fun d => d.isDigit || d == ','),
            l.dropWhile (fun d => d.isDigit || d == ','))
    else none
  | [] => none

/-- `(?:\.\d{2})?` greedily. -/
def matchCents (l : Str) : Str × Str :=
  match l with
  | '.' :: r =>
    match takeDigits 2 r with
    | some dr => ('.' :: dr.1, dr.2)
    | none => ([], l)
  | _ => ([], l)

/-- `(?:,\d{3})*` greedily. -/
def matchThousands : Nat → Str → Str × Str
  | 0, l => ([], l)
  | fuel + 1, l =>
    match l with
    | ',' :: r =>
      match takeDigits 3 r with
      | some dr =>
        let rest := matchThousands fuel dr.2
        (',' :: dr.1 ++ rest.1, rest.2)
      | none => ([], l)
    | _ => ([], l)

/-- One attempt of `amountRegex`
(`(\$[\d,]+(?:\.\d{2})?)|(\d+(?:,\d{3})*(?:\.\d{2})?\s*(?:dollars?|USD|\$))`)
at the head of `l`.  The second alternative is matched greedily without
re-splitting the leading digit run; the theorems below never depend on
this branch. -/
def tryAmountAt (l : Str) : Option (Str × Str) :=
  let alt1 : Option (Str × Str) :=
    match l with
    | '$' :: r =>
      (matchDigitComma r).map fun dr =>
        let cents := matchCents dr.2
        ('$' :: dr.1 ++ cents.1, cents.2)
    | _ => none
  let alt2 : Option (Str × Str) :=
    match l with
    | c :: _ =>
      if c.isDigit then
        let digits := l.takeWhile Char.isDigit
        let r1 := l.dropWhile Char.isDigit
        let th := matchThousands r1.length r1
        let cents := matchCents th.2
        let ws := cents.2.takeWhile jsIsWs
        let r2 := cents.2.dropWhile jsIsWs
        let unit : Option Str :=
          if startsWithCI (str "dollars") r2 then some (r2.take 7)
          else if startsWithCI (str "dollar") r2 then some (r2.take 6)
          else if startsWithCI (str "usd") r2 then some (r2.take 3)
          else match r2 with
            | '$' :: _ => some ['$']
            | _ => none
        unit.map fun u =>
          (digits ++ th.1 ++ cents.1 ++ ws ++ u,
           r2.drop u.length)
      else none
    | [] => none
  alt1 <|> alt2

/-- All matches of `amountRegex` in a string (no `\b` anchors). -/
def findAllAmountsGo : Nat → Str → List Str
  | 0, _ => []
  | _ + 1, [] => []
  | fuel + 1, c :: cs =>
    match tryAmountAt (c :: cs) with
    | some mr => mr.1 :: findAllAmountsGo fuel mr.2
    | none => findAllAmountsGo fuel cs

/-- All matches of `amountRegex` in a string, in order.  The source's
`amountRegex.test(s)` carries a `lastIndex` across calls because of the
`/g` flag; it is modelled as a stateless existence test, which the
theorems below never exercise. -/
def findAllAmounts (l : Str) : List Str := findAllAmountsGo l.length l

/-- The normalization
`question.toLowerCase().replace(/[^\p{L}\p{N}\s]/gu, ' ')` (ASCII
letters/digits suffice for the inputs considered here). -/
def normalizeQ (l : Str) : Str :=
  l.map fun c => if c.isAlpha || c.isDigit || jsIsWs c then c else ' '

/-- Literal `a`, then `\s+`, then literal `b` (used inside the intent
alternations; both literals start with a non-whitespace letter, so the
greedy whitespace run needs no backtracking). -/
def litWsLit (a b t : Str) : Bool :=
  startsWithStr a t &&
    (match matchWsRun (t.drop a.length) with
     | some wr => startsWithStr b wr.2
     | none => false)

/-- `due\b`: the literal followed by a word boundary. -/
def litAtWordEnd (a t : Str) : Bool :=
  startsWithStr a t && atWordEnd (t.drop a.length)

/-- The deadline-intent test
`/(deadline|due\s+date|due\b|last\s+date|submission|submit|submitted\s+on|expiry|expires|expiration|valid\s+until|when)/i`
applied to the already-lowercased normalized question. -/
def deadlineQueryTest (q : Str) : Bool :=
  q.tails.any fun t =>
    startsWithStr (str "deadline") t ||
    litWsLit (str "due") (str "date") t ||
    litAtWordEnd (str "due") t ||
    litWsLit (str "last") (str "date") t ||
    startsWithStr (str "submission") t ||
    startsWithStr (str "submit") t ||
    litWsLit (str "submitted") (str "on") t ||
    startsWithStr (str "expiry") t ||
    startsWithStr (str "expires") t ||
    startsWithStr (str "expiration") t ||
    litWsLit (str "valid") (str "until") t ||
    startsWithStr (str "when") t

/-- The amount-intent test
`/(amount|cost|price|fee|payment|salary|rent|total|sum|money|dollar|\$)/i`. -/
def amountQueryTest (q : Str) : Bool :=
  [str "amount", str "cost", str "price", str "fee", str "payment",
   str "salary", str "rent", str "total", str "sum", str "money",
   str "dollar", str "$"].any fun kw => containsSub kw q

/-- The sentence-level deadline keyword test
`/(deadline|due|expir|valid|until|before|by|end)/i`. -/
def deadlineKeywordTest (s : Str) : Bool :=
  [str "deadline", str "due", str "expir", str "valid", str "until",
   str "before", str "by", str "end"].any fun kw => containsSub kw (lowerStr s)

/-- Word-boundary occurrence of an alphanumeric term (`\bt\b`). -/
def containsWordGo (t : Str) : Bool → Str → Bool
  | _, [] => false
  | prevWord, c :: cs =>
    (!prevWord && startsWithStr t (c :: cs) && atWordEnd ((c :: cs).drop t.length))
      || containsWordGo t (isWordChar c) cs

/-- `new RegExp("\b" ++ t ++ "\b").test(hay)` for an alphanumeric `t`. -/
def containsWord (t hay : Str) : Bool := containsWordGo t false hay

/-- The deadline-branch loop of `generateExtractiveAnswer`: scan the
sentences; at a sentence with a deadline keyword, look for a date in the
window of the sentence and its immediate neighbours and return the first
date with the source sentence quoted. -/
def deadlineScanGo (sentences : List Str) : List (Nat × Str) → Option Str
  | [] => none
  | (i, s) :: rest =>
    if deadlineKeywordTest s then
      let window := (if i = 0 then [] else [sentences.getD (i - 1) []]) ++ [s] ++
        (match sentences.get? (i + 1) with | some t => [t] | none => [])
      match findAllDates (joinWords window) with
      | d :: _ =>
        some (str "The deadline appears to be: " ++ d ++ str ". Source: \"" ++
          trimStr s ++ str "\"")
      | [] => deadlineScanGo sentences rest
    else deadlineScanGo sentences rest

/-- The amount-branch loop: return the first currency match with its
source sentence. -/
def amountScan : List Str → Option Str
  | [] => none
  | s :: rest =>
    match findAllAmounts s with
    | a :: _ =>
      some (str "The amount mentioned is: " ++ a ++ str ". Source: \"" ++
        trimStr s ++ str "\"")
    | [] => amountScan rest

/-- Fallback message when no sentence scores above zero. -/
def notAvailableMsg : Str :=
  str "This information is not clearly available in the provided document."

/-- Message for missing question or context. -/
def noAnswerMsg : Str := str "No answer available from the provided context."

/-- Generic term-overlap scoring of one sentence in the answerer. -/
def scoreAnswerSentence (qTerms : List Str) (idx : Nat) (s : Str) : ScoredSentence :=
  let lower := lowerStr s
  let overlap := qTerms.countP (fun t => containsSub t lower)
  let exactMatches := qTerms.countP (fun t => containsSub t lower && containsWord t lower)
  let lengthPenalty : ℚ := max 1 (((jsSplitWs s).length : ℚ) / 30)
  let positionBonus : ℚ := if idx < 3 then 1/5 else 0
  let structureBonus : ℚ :=
    if containsSub (str ":") s || containsSub (str "•") s || containsSub (str "-") s
    then 3/10 else 0
  { s := s, idx := idx,
    score := ((overlap : ℚ) + (exactMatches : ℚ) * (1/2)) / lengthPenalty +
      positionBonus + structureBonus }

/-- Insertion step of `sort((a, b) => b.score - a.score || a.idx - b.idx)`
(a total order, so stability is irrelevant). -/
def insertAnswerOrd (x : ScoredSentence) : List ScoredSentence → List ScoredSentence
  | [] => [x]
  | y :: ys =>
    if y.score < x.score || (x.score = y.score && x.idx < y.idx) then x :: y :: ys
    else y :: insertAnswerOrd x ys

/-- Sort by descending score, ties by ascending index. -/
def sortAnswerOrd (l : List ScoredSentence) : List ScoredSentence :=
  l.foldl (fun acc x => insertAnswerOrd x acc) []

/-- `generateExtractiveAnswer(question, context)` from `documents.js`.
The source also computes `isWhoQuery` and `isWhatQuery`, which are never
read afterwards and are therefore omitted.  The `try`/`catch` wrapper is
unreachable in this total model. -/
def generateExtractiveAnswer (question context : Str) : Str :=
  if question = [] || context = [] then noAnswerMsg
  else
    let q := trimStr (normalizeQ (lowerStr question))
    let sentences := (splitSentences (collapseWs context)).filter
      (fun s => 10 < s.length)
    let deadlineAns :=
      if deadlineQueryTest q then deadlineScanGo sentences sentences.enum else none
    match deadlineAns with
    | some a => a
    | none =>
      let amountAns := if amountQueryTest q then amountScan sentences else none
      match amountAns with
      | some a => a
      | none =>
        let qTerms := (jsSplitWs q).filter (fun t => 2 < t.length)
        let scored := sentences.enum.map (fun p => scoreAnswerSentence qTerms p.1 p.2)
        let sorted := sortAnswerOrd scored
        match sorted with
        | [] => notAvailableMsg
        | top :: _ =>
          if top.score = 0 then notAvailableMsg
          else
            let topSentences := (sorted.take 2).filter (fun x => 0 < x.score)
            let answer := joinWords (topSentences.map (fun x => trimStr x.s))
            let ws := jsSplitWs answer
            if 100 < ws.length then joinWords (ws.take 100) ++ str "..." else answer

/-! ### Content store and file list (`utils/fileStorage.js`)

The process state mutated by `fileStorage.js` — the `userFiles` map, the
`documentContents` memory `Map`, the per-user upload directory holding
original files and `content-<docId>.txt` files, the persisted
`lc-index-<docId>/chunks.json` chunk sets written by `utils/rag.js`, and
the in-process vector-store cache of `rag.js` — is bundled into one
`Storage` record and threaded explicitly.  `files.json` persistence
mirrors the in-memory `userFiles` list (every write is preceded by the
same in-memory update), so the `userFiles` field plays both roles. -/

/-- Per-file metadata, restricted to the fields the modelled operations
read or write (`status`/timestamps are never read by them). -/
structure FileInfo where
  id : Str
  localPath : Option Str := none
  contentUrl : Option Str := none
  mimeType : Str := []
  hasContent : Bool := false
  contentLength : Nat := 0
  deriving DecidableEq

/-- The shared process state of `fileStorage.js` and `rag.js`. -/
structure Storage where
  userFiles : List (Str × List FileInfo) := []
  documentContents : List (Str × Str) := []
  diskText : List (Str × Str) := []
  diskIndex : List (Str × List Str) := []
  storeCache : List (Str × List Str) := []
  deriving DecidableEq

/-- `uploads/user-<userId>`. -/
def userUploadsDir (userId : Str) : Str := str "uploads/user-" ++ userId

/-- `uploads/user-<userId>/content-<documentId>.txt`. -/
def contentPath (userId documentId : Str) : Str :=
  userUploadsDir userId ++ str "/content-" ++ documentId ++ str ".txt"

/-- `uploads/user-<userId>/lc-index-<documentId>` (`getIndexDir`). -/
def indexDir (userId documentId : Str) : Str :=
  userUploadsDir userId ++ str "/lc-index-" ++ documentId

/-- The `chunks.json` file inside the index directory. -/
def indexPath (userId documentId : Str) : Str :=
  indexDir userId documentId ++ str "/chunks.json"

/-- The memory-cache key `` `${userId}-${documentId}` ``. -/
def contentKey (userId documentId : Str) : Str := userId ++ str "-" ++ documentId

/-- Replace the first element satisfying `p` (`findIndex` + assignment). -/
def updateFirst {α : Type} (p : α → Bool) (upd : α → α) : List α → List α
  | [] => []
  | x :: xs => if p x then upd x :: xs else x :: updateFirst p upd xs

/-- `getUserFile(userId, fileId)`: first file with the given id, if any. -/
def getUserFile (st : Storage) (userId fileId : Str) : Option FileInfo :=
  match lookupA st.userFiles userId with
  | none => none
  | some files => files.find? (fun f => f.id == fileId)

/-- `saveDocumentContent(userId, documentId, content)`.  Empty strings
are falsy in JavaScript, so an empty argument trips the
missing-parameter guard before any state is touched.  The memory store,
the durable write of `content-<id>.txt` and the `hasContent` metadata
update follow the source order; the source swallows durable-write
failures with a warning, which the model represents as the write
succeeding. -/
def saveDocumentContent (st : Storage) (userId documentId content : Str) :
    Except Str Unit × Storage :=
  if userId = [] || documentId = [] || content = [] then
    (.error (str "Missing required parameters"), st)
  else
    let key := contentKey userId documentId
    let st₁ := { st with
      documentContents := setA st.documentContents key content,
      diskText := setA st.diskText (contentPath userId documentId) content }
    let st₂ :=
      match lookupA st₁.userFiles userId with
      | none => st₁
      | some files =>
        let files' := updateFirst (fun f => f.id == documentId)
          (fun f => { f with hasContent := true, contentLength := content.length }) files
        { st₁ with userFiles := setA st₁.userFiles userId files' }
    (.ok (), st₂)

/-- The durable read inside `getDocumentContent`: the module binds
`const fs = require("fs")` (the callback API) and then evaluates
`await fs.readFile(diskPath, 'utf-8')` — `fs.readFile` without a
callback argument, which throws `TypeError [ERR_INVALID_CALLBACK]`
synchronously on every call.  The surrounding `try` swallows the error,
so the disk branch can never produce content. -/
def brokenFsReadFile (_diskPath : Str) : Except Str Str :=
  .error (str "ERR_INVALID_CALLBACK: Callback must be a function")

/-- `getDocumentContent(userId, documentId)`: memory cache, then the
(broken) durable read, then the file object's `contentUrl` via `fetch`
(modelled by the `fetchFn` parameter), else `null`. -/
def getDocumentContent (fetchFn : Str → Except Str Str) (st : Storage)
    (userId documentId : Str) : Option Str × Storage :=
  if userId = [] || documentId = [] then (none, st)
  else
    let key := contentKey userId documentId
    match lookupA st.documentContents key with
    | some content => (some content, st)
    | none =>
      let diskPath := contentPath userId documentId
      let diskResult : Option Str :=
        if hasA st.diskText diskPath then
          match brokenFsReadFile diskPath with
          | .ok c => if c = [] then none else some c
          | .error _ => none
        else none
      match diskResult with
      | some c => (some c, { st with documentContents := setA st.documentContents key c })
      | none =>
        match getUserFile st userId documentId with
        | none => (none, st)
        | some file =>
          match file.contentUrl with
          | some url =>
            match fetchFn url with
            | .ok content =>
              (some content, { st with documentContents := setA st.documentContents key content })
            | .error _ => (none, st)
          | none => (none, st)

/-- `removeDocumentContent(userId, documentId)`: delete the memory-cache
entry and the `content-<id>.txt` file if present. -/
def removeDocumentContent (st : Storage) (userId documentId : Str) : Storage :=
  let st₁ := { st with
    documentContents := eraseA st.documentContents (contentKey userId documentId) }
  let p := contentPath userId documentId
  if hasA st₁.diskText p then { st₁ with diskText := eraseA st₁.diskText p } else st₁

/-- `removeUserFile(userId, fileId)`: if the user owns a file with the
id, delete its stored original (`localPath`), its document content, and
its list entry, returning `true`; otherwise return `false`. -/
def removeUserFile (st : Storage) (userId fileId : Str) : Bool × Storage :=
  match lookupA st.userFiles userId with
  | none => (false, st)
  | some files =>
    match files.findIdx? (fun f => f.id == fileId) with
    | none => (false, st)
    | some idx =>
      match files.get? idx with
      | none => (false, st)
      | some file =>
        let st₁ :=
          match file.localPath with
          | some p =>
            if hasA st.diskText p then { st with diskText := eraseA st.diskText p } else st
          | none => st
        let st₂ := removeDocumentContent st₁ userId fileId
        (true, { st₂ with userFiles := setA st₂.userFiles userId (files.eraseIdx idx) })

/-! ### Chunk indexer and retriever (`utils/rag.js`)

The `RecursiveCharacterTextSplitter` and the embedding-backed
`MemoryVectorStore` are external LangChain collaborators; they enter the
model as the parameters `splitDocs` (the raw chunk list the splitter
produces for a text) and `rank` (the full similarity ordering of the
stored chunks for a question — `similaritySearch(q, k)` returns its first
`k` elements). -/

/-- `buildIndex(userId, documentId, content)`: reject blank content,
split, reject an empty split, then persist the chunks whose trimmed
length exceeds 20 characters as `chunks.json` (the JSON metadata fields
`createdAt`/`chunkSize`/`overlap`/`totalChunks` are bookkeeping the
loader never uses and are not modelled). -/
def buildIndex (splitDocs : Str → List Str) (st : Storage)
    (userId documentId content : Str) : Except Str Storage :=
  if content = [] || (trimStr content).length = 0 then
    .error (str "No content provided for indexing")
  else
    let docs := splitDocs content
    if docs = [] then .error (str "No chunks created from content")
    else
      let chunks := docs.filter (fun chunk => 20 < (trimStr chunk).length)
      .ok { st with diskIndex := setA st.diskIndex (indexPath userId documentId) chunks }

/-- `loadIndex(userId, documentId)`: `null` when no persisted chunk set
exists; else the per-directory store cache; else (given an API key)
rebuild the in-memory store from the persisted chunks and cache it.  The
in-memory store is modelled by its chunk list. -/
def loadIndex (st : Storage) (apiKey : Bool) (userId documentId : Str) :
    Option (List Str) × Storage :=
  let dir := indexDir userId documentId
  let p := indexPath userId documentId
  if !(hasA st.diskIndex p) then (none, st)
  else
    match lookupA st.storeCache dir with
    | some store => (some store, st)
    | none =>
      if !apiKey then (none, st)
      else
        let chunks := (lookupA st.diskIndex p).getD []
        if chunks = [] then (none, st)
        else (some chunks, { st with storeCache := setA st.storeCache dir chunks })

/-- The `results` list of `retrieveTopK`: `none` models the early
empty-string returns (no store, blank question); otherwise the top
`Math.max(1, k)` chunks of the similarity ordering. -/
def retrieveResults (rank : List Str → Str → List Str) (st : Storage) (apiKey : Bool)
    (userId documentId question : Str) (k : Int) : Option (List Str) × Storage :=
  match loadIndex st apiKey userId documentId with
  | (none, st') => (none, st')
  | (some store, st') =>
    if question = [] || (trimStr question).length = 0 then (none, st')
    else (some ((rank store question).take (max 1 k).toNat), st')

/-- `retrieveTopK(userId, documentId, question, k = 4)`: empty string
when no store or a blank question or no results; otherwise the retrieved
chunk texts joined by blank lines.  The whole body is wrapped in a
`catch` returning `''`; the model is a total function, realizing the
never-throws contract. -/
def retrieveTopK (rank : List Str → Str → List Str) (st : Storage) (apiKey : Bool)
    (userId documentId question : Str) (k : Int) : Str × Storage :=
  match retrieveResults rank st apiKey userId documentId question k with
  | (none, st') => ([], st')
  | (some results, st') =>
    if results = [] then ([], st') else (joinBlankLine results, st')

/-! ### Summarizer (`documents.js`, cache, rate limit, `generateSummary`) -/

/-- The summary-cache and rate-limit state of `documents.js`. -/
structure SummarizerState where
  summaryCache : List (Str × (Str × Nat)) := []
  requestCounts : List (Str × (Nat × Nat)) := []
  deriving DecidableEq

/-- `CACHE_TTL` (one hour, in milliseconds). -/
def CACHE_TTL : Nat := 3600000

/-- `rateLimit.windowMs` (one hour). -/
def rateWindowMs : Nat := 3600000

/-- `rateLimit.maxRequests`. -/
def rateMaxRequests : Nat := 10

/-- `checkRateLimit(ip)`: prune entries older than the window start,
then refuse when the caller's count has reached the quota, else record
the incremented count with the current timestamp.  Times are naturals;
`now - rateWindowMs` truncates at zero exactly as the negative window
start compares in the source for non-negative timestamps. -/
def checkRateLimit (st : SummarizerState) (now : Nat) (ip : Str) :
    Bool × SummarizerState :=
  let windowStart := now - rateWindowMs
  let pruned := st.requestCounts.filter (fun e => !(decide (e.2.2 < windowStart)))
  let ipData := (lookupA pruned ip).getD (0, now)
  if rateMaxRequests ≤ ipData.1 then (false, { st with requestCounts := pruned })
  else (true, { st with requestCounts := setA pruned ip (ipData.1 + 1, now) })

/-- The summary cache key `` `${documentId}-${ip}` ``. -/
def summaryCacheKey (documentId ip : Str) : Str := documentId ++ str "-" ++ ip

/-- The generative-summary prompt built by `generateSummary`. -/
def summaryPrompt (fileName : Option Str) (contentToSummarize : Str) : Str :=
  let documentName :=
    match fileName with
    | some n => str "\"" ++ n ++ str "\""
    | none => str "this document"
  str "Please provide a comprehensive summary of " ++ documentName ++
  str ". \n\nDocument content:\n" ++ contentToSummarize ++
  str "\n\nCreate a well-structured summary that includes:\n- Main purpose and type of document\n- Key parties involved (if applicable)\n- Important terms, conditions, or requirements\n- Critical dates, deadlines, or timeframes\n- Financial information (amounts, payments, etc.)\n- Key obligations and responsibilities\n- Any important legal or regulatory information\n\nFormat your response using markdown:\n- Use **bold** for important terms and headings\n- Use bullet points with * for lists\n- Use clear paragraph breaks\n- Keep it professional and easy to read"

/-- `generateSummary(text, documentId, ip, { fileName })`.  The external
generative call is `genFn` applied to the built prompt; `none` models
every failure the source catches (timeout, quota, missing/invalid
response).  Flow: non-expired cache entry returned verbatim; rate-limit
refusal falls back to the extractive summary; missing API key likewise;
a usable generative response is trimmed, cached with the current
timestamp, and returned; any failure (including a blank response) falls
back to the extractive summary without caching. -/
def generateSummary (genFn : Str → Option Str) (apiKey : Bool) (st : SummarizerState)
    (now : Nat) (text documentId ip : Str) (fileName : Option Str) :
    Str × SummarizerState :=
  let cacheKey := summaryCacheKey documentId ip
  let onMiss : SummarizerState → Str × SummarizerState := fun st₀ =>
    match checkRateLimit st₀ now ip with
    | (false, st₁) => (generateExtractiveSummary text, st₁)
    | (true, st₁) =>
      if !apiKey then (generateExtractiveSummary text, st₁)
      else
        let contentToSummarize :=
          if 8000 < text.length then text.take 8000 ++ str "..." else text
        match genFn (summaryPrompt fileName contentToSummarize) with
        | none => (generateExtractiveSummary text, st₁)
        | some summary =>
          if trimStr summary = [] then (generateExtractiveSummary text, st₁)
          else
            let s := trimStr summary
            (s, { st₁ with summaryCache := setA st₁.summaryCache cacheKey (s, now) })
  match lookupA st.summaryCache cacheKey with
  | some entry => if now - entry.2 < CACHE_TTL then (entry.1, st) else onMiss st
  | none => onMiss st

/-! ### Answerer glue (`askQuestion`) and the two route handlers -/

/-- Outcomes of the external `model.generateContent` call in
`askQuestion`: a response text, a quota/429 failure (which the source
distinguishes via `isQuotaExceededError`), or any other failure. -/
inductive GenAnswer where
  | ok (text : Str)
  | quota
  | failed
  deriving DecidableEq

/-- The grounded-answer prompt of `askQuestion`. -/
def answerPrompt (truncatedContext question : Str) : Str :=
  str "You are a helpful document assistant. Answer the question based on the provided document context.\n\nInstructions:\n- Answer directly and concisely based on the document content\n- If you find specific information, quote the relevant part using \"quotes\"\n- If the information is not in the document, say \"This information is not available in the document\"\n- Use **bold** for important terms or amounts\n- Be accurate and helpful\n\nDocument Context:\n" ++
  truncatedContext ++ str "\n\nQuestion: " ++ question ++ str "\n\nAnswer:"

/-- The apology prefix used on a quota failure (the apostrophe of the
source text is built explicitly). -/
def apologyMsg : Str :=
  str "I" ++ [Char.ofNat 39] ++
  str "m currently experiencing high demand. Based on the document content: "

/-- `askQuestion(question, context)`: truncate the context to 12000
characters, use the generative capability, and on failure fall back to
the extractive answer — against the truncated context when the API key
is missing, against the original context in the `catch` (as the source
does), with the apology prefix on a quota failure. -/
def askQuestion (genFn : Str → GenAnswer) (apiKey : Bool) (question context : Str) :
    Str :=
  let truncatedContext :=
    if 12000 < context.length then context.take 12000 ++ str "..." else context
  if !apiKey then generateExtractiveAnswer question truncatedContext
  else
    match genFn (answerPrompt truncatedContext question) with
    | .ok t =>
      if trimStr t = [] then generateExtractiveAnswer question context
      else trimStr t
    | .quota => apologyMsg ++ generateExtractiveAnswer question context
    | .failed => generateExtractiveAnswer question context

/-- Route handler outcomes, keyed by the source's error codes. -/
inductive RouteResult where
  | success (body : Str)
  | notFound (code : Str)
  | badRequest (code : Str)
  | serverError (code : Str)
  deriving DecidableEq

/-- `GET /:id/content`: 404 `FILE_NOT_FOUND` for an unknown document;
else the stored content; else lazy re-extraction from the stored
original (via the `extractFn` collaborator on the file path and declared
media type), saved for future use; else 404 `CONTENT_NOT_FOUND`.
Extraction or save failures surface as the 500 handler. -/
def getContentRoute (extractFn : Str → Str → Except Str Str)
    (fetchFn : Str → Except Str Str) (st : Storage) (userId documentId : Str) :
    RouteResult × Storage :=
  match getUserFile st userId documentId with
  | none => (.notFound (str "FILE_NOT_FOUND"), st)
  | some file =>
    match getDocumentContent fetchFn st userId documentId with
    | (found, st₁) =>
      let missing := match found with | none => true | some c => c = []
      if !missing then (.success (found.getD []), st₁)
      else
        match file.localPath with
        | some p =>
          if hasA st₁.diskText p then
            match extractFn p file.mimeType with
            | .ok content =>
              if content = [] then (.notFound (str "CONTENT_NOT_FOUND"), st₁)
              else
                match saveDocumentContent st₁ userId documentId content with
                | (.ok _, st₂) => (.success content, st₂)
                | (.error _, st₂) => (.serverError (str "FAILED_TO_RETRIEVE_CONTENT"), st₂)
            | .error _ => (.serverError (str "FAILED_TO_RETRIEVE_CONTENT"), st₁)
          else (.notFound (str "CONTENT_NOT_FOUND"), st₁)
        | none => (.notFound (str "CONTENT_NOT_FOUND"), st₁)

/-- `/^(hi|hello|hey|hola|namaste)[!.\s]*$/` on the lowercased trimmed
question. -/
def greetingTest (q : Str) : Bool :=
  [str "hi", str "hello", str "hey", str "hola", str "namaste"].any fun g =>
    startsWithStr g q && (q.drop g.length).all (fun c => c == '!' || c == '.' || jsIsWs c)

/-- `/who\s+are\s+you\??/` (unanchored; the optional `?` cannot affect
the existence of a match). -/
def whoAreYouTest (q : Str) : Bool :=
  q.tails.any fun t =>
    startsWithStr (str "who") t &&
      (match matchWsRun (t.drop 3) with
       | some w1 =>
         startsWithStr (str "are") w1.2 &&
           (match matchWsRun (w1.2.drop 3) with
            | some w2 => startsWithStr (str "you") w2.2
            | none => false)
       | none => false)

/-- The greeting small-talk response of the ask route. -/
def greetingMsg : Str := str "Hello! How can I help you with your document?"

/-- The identity small-talk response of the ask route. -/
def identityMsg : Str :=
  str "I am the LegalLens assistant bot. Ask me anything about your document."

/-- `POST /:id/ask`: validate the question, answer small talk, 404
`DOCUMENT_NOT_FOUND` for an unknown document, fetch or lazily re-extract
the content (400 `CONTENT_NOT_AVAILABLE` when none), retrieve context
via RAG with `k = 4` falling back to the truncated full content, and
answer via `askQuestion`.  The response body models the `response` field
of the analysis record. -/
def askRoute (genFn : Str → GenAnswer) (rank : List Str → Str → List Str)
    (extractFn : Str → Str → Except Str Str) (fetchFn : Str → Except Str Str)
    (apiKey : Bool) (st : Storage) (userId documentId question : Str) :
    RouteResult × Storage :=
  if question = [] || trimStr question = [] then
    (.badRequest (str "INVALID_QUESTION"), st)
  else
    let qLower := trimStr (lowerStr question)
    if greetingTest qLower then (.success greetingMsg, st)
    else if whoAreYouTest qLower then (.success identityMsg, st)
    else
      match getUserFile st userId documentId with
      | none => (.notFound (str "DOCUMENT_NOT_FOUND"), st)
      | some file =>
        let runAnswer : Str → Storage → RouteResult × Storage := fun content st' =>
          match retrieveTopK rank st' apiKey userId documentId question 4 with
          | (retrieved, st'') =>
            let finalContext :=
              if retrieved ≠ [] && trimStr retrieved ≠ [] then retrieved
              else if 8000 < content.length then content.take 8000 ++ str "..."
              else content
            (.success (askQuestion genFn apiKey question finalContext), st'')
        match getDocumentContent fetchFn st userId documentId with
        | (found, st₁) =>
          let missing := match found with | none => true | some c => c = []
          if !missing then runAnswer (found.getD []) st₁
          else
            match file.localPath with
            | some p =>
              if hasA st₁.diskText p then
                match extractFn p file.mimeType with
                | .ok content =>
                  if content = [] then (.badRequest (str "CONTENT_NOT_AVAILABLE"), st₁)
                  else
                    match saveDocumentContent st₁ userId documentId content with
                    | (.ok _, st₂) => runAnswer content st₂
                    | (.error _, st₂) =>
                      (.serverError (str "DOCUMENT_PROCESSING_ERROR"), st₂)
                | .error _ => (.serverError (str "DOCUMENT_PROCESSING_ERROR"), st₁)
              else (.badRequest (str "CONTENT_NOT_AVAILABLE"), st₁)
            | none => (.badRequest (str "CONTENT_NOT_AVAILABLE"), st₁)

/-! ### Text extractor (`utils/helpers.js`, `extractTextFromFile`)

The pdf-parse and mammoth parsers and the UTF-8 decoding of `Buffer` are
external capabilities, passed as parameters (`Buffer.toString('utf-8')`
never throws — it substitutes replacement characters — so the decoder is
total and the default-branch `catch` of the source is unreachable).  The
model covers the buffer-input branch the pipeline uses; URL download and
path resolution are transport bookkeeping outside the extraction
contract. -/

/-- The user-facing error classification of the outer `catch` of
`extractTextFromFile`. -/
def classifyExtractError (m : Str) : Str :=
  if containsSub (str "unsupported file format") m ||
      containsSub (str "Invalid PDF structure") m then
    str "The file appears to be corrupted or in an unsupported format"
  else if containsSub (str "File is empty") m then str "The file is empty"
  else if containsSub (str "File type") m || containsSub (str "Unsupported") m then m
  else str "Failed to process the document"

/-- `extractTextFromFile(fileBuffer, mimeType)`: reject an empty buffer,
then dispatch on the declared media type (falling back to `'pdf'` when
it is empty, as `mimeType || ... || 'pdf'` does), with best-effort UTF-8
decoding as the default branch; errors are mapped through
`classifyExtractError`. -/
def extractTextFromFile (pdfFn docxFn : List Nat → Except Str Str)
    (decodeUtf8 : List Nat → Str) (fileBuffer : List Nat) (mimeType : Str) :
    Except Str Str :=
  let inner : Except Str Str :=
    if fileBuffer = [] then .error (str "File is empty")
    else
      let fileType := lowerStr (if mimeType = [] then str "pdf" else mimeType)
      if fileType = str "application/pdf" || fileType = str "pdf" then
        match pdfFn fileBuffer with
        | .ok t => .ok t
        | .error m => .error (str "Failed to extract text from PDF: " ++ m)
      else if fileType =
          str "application/vnd.openxmlformats-officedocument.wordprocessingml.document"
          || fileType = str "docx" then
        docxFn fileBuffer
      else if fileType = str "text/plain" || fileType = str "txt" ||
          fileType = str "md" || fileType = str "markdown" then
        .ok (decodeUtf8 fileBuffer)
      else
        .ok (decodeUtf8 fileBuffer)
  match inner with
  | .ok t => .ok t
  | .error m => .error (classifyExtractError m)

/-! ### Association-list lemmas -/

theorem lookupA_setA_self {β : Type} (m : List (Str × β)) (k : Str) (v : β) :
    lookupA (setA m k v) k = some v := by
  induction m with
  | nil => simp [setA, lookupA]
  | cons p rest ih =>
    obtain ⟨a, b⟩ := p
    by_cases h : a = k <;> simp [setA, lookupA, h, ih]

theorem lookupA_eraseA_self {β : Type} (m : List (Str × β)) (k : Str) :
    lookupA (eraseA m k) k = none := by
  induction m with
  | nil => simp [eraseA, lookupA]
  | cons p rest ih =>
    obtain ⟨a, b⟩ := p
    by_cases h : a = k <;> simp [eraseA, lookupA, h, ih]

/-! ### Claims about the text extractor -/

/-- Claim C3: for every declared media type (and any behaviour of the
pdf, docx and UTF-8 capabilities), `extractTextFromFile` on zero-length
input bytes fails with the empty-file error — the classification of the
internal `File is empty` signal — and never returns a text value. -/
theorem extract_empty_input_fails (pdfFn docxFn : List Nat → Except Str Str)
    (decodeUtf8 : List Nat → Str) (mimeType : Str) :
    extractTextFromFile pdfFn docxFn decodeUtf8 [] mimeType =
      .error (str "The file is empty") ∧
    ∀ t, extractTextFromFile pdfFn docxFn decodeUtf8 [] mimeType ≠ .ok t := by
  refine ⟨rfl, ?_⟩
  intro t h
  rw [show extractTextFromFile pdfFn docxFn decodeUtf8 [] mimeType =
    .error (str "The file is empty") from rfl] at h
  exact Except.noConfusion h

/-- Closed witness for C3 at a concrete media type. -/
theorem extract_empty_input_fails_witness :
    extractTextFromFile (fun _ => .error []) (fun _ => .error []) (fun _ => [])
      [] (str "application/pdf") = .error (str "The file is empty") :=
  (extract_empty_input_fails (fun _ => .error []) (fun _ => .error []) (fun _ => [])
    (str "application/pdf")).1

/-! ### Claims about the content store -/

/-- Claim C10: `saveDocumentContent` with empty-string text trips the
falsy-argument guard, fails with `Missing required parameters`, and
returns the state unchanged (no memory-cache or durable write happens),
so empty extracted text can never be persisted. -/
theorem save_empty_content_rejected (st : Storage) (userId documentId : Str) :
    saveDocumentContent st userId documentId [] =
      (.error (str "Missing required parameters"), st) := by
  simp [saveDocumentContent]

/-- Closed witness for C10 at a concrete populated state. -/
theorem save_empty_content_rejected_witness :
    saveDocumentContent
        { documentContents := [(str "u-d", str "kept")] } (str "u") (str "d") [] =
      (.error (str "Missing required parameters"),
        { documentContents := [(str "u-d", str "kept")] }) :=
  save_empty_content_rejected { documentContents := [(str "u-d", str "kept")] }
    (str "u") (str "d")

/-! ### Claims about the chunk indexer -/

/-- Claim C2 (amended): `buildIndex` fails with the `EmptyContent` error
on blank input; it fails with the `NoChunksProduced` error exactly when
the splitter returns zero raw chunks; and on success the persisted chunk
set is the splitter output restricted to chunks of trimmed length
strictly greater than 20 — in particular every chunk shorter than 20
characters after trimming is discarded, and when every raw chunk is
short the persisted chunk set is empty (no error is raised). -/
theorem buildIndex_spec (split : Str → List Str) (st : Storage)
    (userId documentId content : Str) :
    (trimStr content = [] →
      buildIndex split st userId documentId content =
        .error (str "No content provided for indexing")) ∧
    (trimStr content ≠ [] → split content = [] →
      buildIndex split st userId documentId content =
        .error (str "No chunks created from content")) ∧
    (∀ st', buildIndex split st userId documentId content = .ok st' →
      lookupA st'.diskIndex (indexPath userId documentId) =
        some ((split content).filter (fun c => 20 < (trimStr c).length)) ∧
      ∀ c ∈ (split content).filter (fun c => 20 < (trimStr c).length),
        ¬ (trimStr c).length < 20) := by
  refine ⟨?_, ?_, ?_⟩
  · intro h
    have hc : content = [] ∨ (trimStr content).length = 0 := by
      right; simp [h]
    simp only [buildIndex]
    rcases hc with hc | hc <;> simp [hc]
  · intro h hsplit
    have hne : ¬ (content = [] ∨ (trimStr content).length = 0) := by
      rintro (hc | hc)
      · exact h (by simp [hc, trimStr])
      · exact h (List.length_eq_zero.mp hc)
    simp only [buildIndex]
    rw [if_neg (by simpa using hne)]
    simp [hsplit]
  · intro st' h
    by_cases hc : content = [] ∨ (trimStr content).length = 0
    · simp only [buildIndex] at h
      rw [if_pos (by simpa using hc)] at h
      exact absurd h (by simp)
    · simp only [buildIndex] at h
      rw [if_neg (by simpa using hc)] at h
      by_cases hsplit : split content = []
      · rw [if_pos hsplit] at h
        exact absurd h (by simp)
      · rw [if_neg hsplit] at h
        refine ⟨?_, ?_⟩
        · cases h
          exact lookupA_setA_self _ _ _
        · intro c hc
          have h20 : 20 < (trimStr c).length :=
            of_decide_eq_true (List.mem_filter.mp hc).2
          omega

/-- Closed witness for C2: blank input, a splitter yielding nothing, and
a successful build, each at concrete inputs. -/
theorem buildIndex_spec_witness :
    buildIndex (fun c => [c]) {} (str "u1") (str "d1") (str "   ") =
      .error (str "No content provided for indexing") ∧
    buildIndex (fun _ => []) {} (str "u1") (str "d1") (str "hello") =
      .error (str "No chunks created from content") ∧
    lookupA (Storage.diskIndex { diskIndex :=
        [(indexPath (str "u1") (str "d1"),
          [str "a chunk that is long enough to be kept around"])] })
      (indexPath (str "u1") (str "d1")) =
      some (((fun c => [c]) (str "a chunk that is long enough to be kept around")).filter
        (fun c => 20 < (trimStr c).length)) := by
  refine ⟨?_, ?_, ?_⟩
  · exact (buildIndex_spec (fun c => [c]) {} (str "u1") (str "d1") (str "   ")).1
      (by decide)
  · exact (buildIndex_spec (fun _ => []) {} (str "u1") (str "d1") (str "hello")).2.1
      (by decide) rfl
  · exact ((buildIndex_spec (fun c => [c]) {} (str "u1") (str "d1")
      (str "a chunk that is long enough to be kept around")).2.2 _ rfl).1

/-- The behaviour of `RecursiveCharacterTextSplitter.createDocuments` on
a text shorter than the chunk size: the whole text comes back as the
single chunk. -/
def shortTextSplit : Str → List Str := fun content => [content]

/-- Counterexample for C2 as stated: on the non-blank input
`"short text"` the splitter yields one raw chunk, the 20-character
filter discards it, and `buildIndex` succeeds and persists a chunk set
with zero usable chunks instead of failing with `NoChunksProduced` (the
`docs.length === 0` check runs before the length filter). -/
theorem buildIndex_zero_usable_chunks_persisted :
    trimStr (str "short text") ≠ [] ∧
    buildIndex shortTextSplit {} (str "u1") (str "d1") (str "short text") =
      .ok { diskIndex := [(indexPath (str "u1") (str "d1"), [])] } ∧
    (shortTextSplit (str "short text")).filter (fun c => 20 < (trimStr c).length) = [] := by
  refine ⟨by decide, rfl, by decide⟩

/-! ### Claims about the retriever -/

/-- `loadIndex` leaves the state unchanged whenever it returns `none`. -/
theorem loadIndex_none_state (st : Storage) (apiKey : Bool) (userId documentId : Str)
    (h : (loadIndex st apiKey userId documentId).1 = none) :
    loadIndex st apiKey userId documentId = (none, st) := by
  unfold loadIndex at h ⊢
  by_cases h1 : hasA st.diskIndex (indexPath userId documentId)
  · simp only [h1, Bool.not_true, Bool.false_eq_true, if_false] at h ⊢
    cases h2 : lookupA st.storeCache (indexDir userId documentId) with
    | some store => simp [h2] at h
    | none =>
      simp only [h2] at h ⊢
      cases apiKey with
      | false => simp
      | true =>
        simp only [Bool.not_true, Bool.false_eq_true, if_false] at h ⊢
        by_cases h3 : (lookupA st.diskIndex (indexPath userId documentId)).getD [] = []
        · simp [h3]
        · simp [h3] at h
  · simp [h1]

/-- Claim C4: `retrieveTopK` returns the empty string (without ever
throwing — it is a total function) when no index is available; it
returns the empty string for a blank question; the number of retrieved
chunks is at most `k` clamped to at least 1; and every `k ≤ 1`
(including 0 and negatives) behaves exactly as `k = 1`. -/
theorem retrieveTopK_spec (rank : List Str → Str → List Str) (st : Storage)
    (apiKey : Bool) (userId documentId question : Str) (k : Int) :
    ((loadIndex st apiKey userId documentId).1 = none →
      retrieveTopK rank st apiKey userId documentId question k = ([], st)) ∧
    (trimStr question = [] →
      (retrieveTopK rank st apiKey userId documentId question k).1 = []) ∧
    (∀ results, (retrieveResults rank st apiKey userId documentId question k).1 =
        some results → results.length ≤ (max 1 k).toNat) ∧
    (k ≤ 1 → retrieveTopK rank st apiKey userId documentId question k =
      retrieveTopK rank st apiKey userId documentId question 1) := by
  refine ⟨?_, ?_, ?_, ?_⟩
  · intro h
    have hl := loadIndex_none_state st apiKey userId documentId h
    simp [retrieveTopK, retrieveResults, hl]
  · intro h
    cases hl : loadIndex st apiKey userId documentId with
    | mk o st' =>
      cases o with
      | none => simp [retrieveTopK, retrieveResults, hl]
      | some store => simp [retrieveTopK, retrieveResults, hl, h]
  · intro results h
    cases hl : loadIndex st apiKey userId documentId with
    | mk o st' =>
      cases o with
      | none => simp [retrieveResults, hl] at h
      | some store =>
        simp only [retrieveResults, hl] at h
        split at h
        · simp at h
        · have hres : results = (rank store question).take (max 1 k).toNat := by
            simpa using h.symm
          rw [hres, List.length_take]
          exact Nat.min_le_left _ _
  · intro h
    have hm : max 1 k = 1 := max_eq_left h
    have hm1 : max (1 : Int) 1 = 1 := max_self 1
    simp only [retrieveTopK, retrieveResults, hm, hm1]

/-- Closed witness for C4 at concrete states: an empty store, a blank
question, a one-chunk retrieval with `k = 0`, and `k = -5` vs `k = 1`. -/
theorem retrieveTopK_spec_witness :
    retrieveTopK (fun store _ => store) {} true (str "u1") (str "d1")
        (str "question") 0 = ([], {}) ∧
    (retrieveTopK (fun store _ => store)
        { diskIndex := [(indexPath (str "u1") (str "d1"),
            [str "a chunk that is long enough to be kept around"])] }
        true (str "u1") (str "d1") (str "   ") 4).1 = [] ∧
    [str "a chunk that is long enough to be kept around"].length ≤
      (max 1 (0 : Int)).toNat ∧
    retrieveTopK (fun store _ => store)
        { diskIndex := [(indexPath (str "u1") (str "d1"),
            [str "a chunk that is long enough to be kept around"])] }
        true (str "u1") (str "d1") (str "question") (-5) =
      retrieveTopK (fun store _ => store)
        { diskIndex := [(indexPath (str "u1") (str "d1"),
            [str "a chunk that is long enough to be kept around"])] }
        true (str "u1") (str "d1") (str "question") 1 := by
  refine ⟨?_, ?_, ?_, ?_⟩
  · exact (retrieveTopK_spec (fun store _ => store) {} true (str "u1") (str "d1")
      (str "question") 0).1 (by decide)
  · exact (retrieveTopK_spec (fun store _ => store)
      { diskIndex := [(indexPath (str "u1") (str "d1"),
          [str "a chunk that is long enough to be kept around"])] }
      true (str "u1") (str "d1") (str "   ") 4).2.1 (by decide)
  · exact (retrieveTopK_spec (fun store _ => store)
      { diskIndex := [(indexPath (str "u1") (str "d1"),
          [str "a chunk that is long enough to be kept around"])] }
      true (str "u1") (str "d1") (str "question") 0).2.2.1 _ (by decide)
  · exact (retrieveTopK_spec (fun store _ => store)
      { diskIndex := [(indexPath (str "u1") (str "d1"),
          [str "a chunk that is long enough to be kept around"])] }
      true (str "u1") (str "d1") (str "question") (-5)).2.2.2 (by decide)

/-! ### Claims about the content store round trip -/

/-- A fetch capability that always fails (no `contentUrl` is consulted in
the scenarios below anyway). -/
def fetchNone : Str → Except Str Str := fun _ => .error []

/-- A state holding one user with one uploaded document and no content. -/
def c7Base : Storage := { userFiles := [(str "u1", [{ id := str "d1" }])] }

/-- The state after `saveDocumentContent('u1', 'd1', 'hello world')`. -/
def c7Saved : Storage :=
  (saveDocumentContent c7Base (str "u1") (str "d1") (str "hello world")).2

/-- `c7Saved` after a simulated process restart: the in-memory
`documentContents` map is gone, the durable files remain. -/
def c7Restarted : Storage := { c7Saved with documentContents := [] }

/-- Claim C7, at the failing input: the save succeeds and the in-run
load returns the saved text from the memory cache, and the durable
`content-d1.txt` holds the text after the restart — yet the post-restart
load returns nothing, because the durable read awaits the callback-style
`fs.readFile` without a callback, which always throws (see
`brokenFsReadFile`), and the state has no `contentUrl` fallback. -/
theorem contentStore_restart_load_broken :
    (saveDocumentContent c7Base (str "u1") (str "d1") (str "hello world")).1 = .ok () ∧
    (getDocumentContent fetchNone c7Saved (str "u1") (str "d1")).1 =
      some (str "hello world") ∧
    lookupA c7Restarted.diskText (contentPath (str "u1") (str "d1")) =
      some (str "hello world") ∧
    (getDocumentContent fetchNone c7Restarted (str "u1") (str "d1")).1 = none := by
  exact ⟨rfl, by decide, by decide, by decide⟩

/-! ### Claims about the summarizer -/

/-- Claim C5: a non-expired `SummaryCacheEntry` for `(docId, ip)` is
returned verbatim with the state untouched; consequently, when a call
leaves the cache holding its own result stamped with its own time (as
the generative-success path does), a second call within the TTL window
returns byte-identical text. -/
theorem generateSummary_cache_spec (genFn : Str → Option Str) (apiKey : Bool)
    (st : SummarizerState) (now : Nat) (text documentId ip : Str)
    (fileName : Option Str) :
    (∀ s ts, lookupA st.summaryCache (summaryCacheKey documentId ip) = some (s, ts) →
      now - ts < CACHE_TTL →
      generateSummary genFn apiKey st now text documentId ip fileName = (s, st)) ∧
    (∀ t₂ r₁ st₁,
      generateSummary genFn apiKey st now text documentId ip fileName = (r₁, st₁) →
      lookupA st₁.summaryCache (summaryCacheKey documentId ip) = some (r₁, now) →
      t₂ - now < CACHE_TTL →
      (generateSummary genFn apiKey st₁ t₂ text documentId ip fileName).1 = r₁) := by
  constructor
  · intro s ts h hf
    simp [generateSummary, h, hf]
  · intro t₂ r₁ st₁ _ h2 hf
    simp [generateSummary, h2, hf]

/-- A generative capability returning a fixed summary. -/
def sumGen : Str → Option Str := fun _ => some (str "A generated summary.")

/-- A summarizer state with a fresh cache entry for `(d1, ip)`. -/
def c5CacheSt : SummarizerState :=
  { summaryCache := [(summaryCacheKey (str "d1") (str "ip"), (str "CACHED", 0))] }

/-- The state after a first, generative-success summarize call at time 0
from the empty state. -/
def c5AfterFirst : SummarizerState :=
  (generateSummary sumGen true {} 0 (str "doc text") (str "d1") (str "ip") none).2

/-- Closed witness for C5: a concrete cache hit, and a concrete pair of
calls (at times 0 and 100) returning identical text. -/
theorem generateSummary_cache_spec_witness :
    generateSummary sumGen true c5CacheSt 10 (str "doc text") (str "d1") (str "ip")
      none = (str "CACHED", c5CacheSt) ∧
    (generateSummary sumGen true c5AfterFirst 100 (str "doc text") (str "d1")
      (str "ip") none).1 = str "A generated summary." := by
  constructor
  · exact (generateSummary_cache_spec sumGen true c5CacheSt 10 (str "doc text")
      (str "d1") (str "ip") none).1 (str "CACHED") 0 (by decide) (by decide)
  · exact (generateSummary_cache_spec sumGen true {} 0 (str "doc text")
      (str "d1") (str "ip") none).2 100 (str "A generated summary.") c5AfterFirst
      (by decide) (by decide) (by decide)

/-- A summarizer state whose caller `ip` has exhausted the quota and
which holds a fresh cache entry for `(d1, ip)`. -/
def c6CachedLimitedSt : SummarizerState :=
  { summaryCache := [(summaryCacheKey (str "d1") (str "ip"), (str "CACHED", 0))],
    requestCounts := [(str "ip", (10, 0))] }

/-- Counterexample for C6 as stated: the caller has exceeded the quota
(`checkRateLimit` refuses), yet `generateSummary` returns the cached
text, not the extractive summary — the cache check runs before the
rate-limit check. -/
theorem rate_limited_returns_cached_not_extractive :
    (checkRateLimit c6CachedLimitedSt 0 (str "ip")).1 = false ∧
    (generateSummary sumGen true c6CachedLimitedSt 0 (str "doc") (str "d1")
      (str "ip") none).1 = str "CACHED" ∧
    generateExtractiveSummary (str "doc") ≠ str "CACHED" := by
  exact ⟨by decide, by decide, by decide⟩

/-- Claim C6 (amended): provided no non-expired cache entry exists for
`(docId, ip)`, a caller over the quota gets the extractive summary of
the text — never a failure, and without the generative capability being
consulted (the result is the same for any two capabilities). -/
theorem generateSummary_rate_limited_spec (genFn genFn' : Str → Option Str)
    (apiKey : Bool) (st : SummarizerState) (now : Nat) (text documentId ip : Str)
    (fileName : Option Str)
    (hnocache : ∀ s ts,
      lookupA st.summaryCache (summaryCacheKey documentId ip) = some (s, ts) →
      ¬ (now - ts < CACHE_TTL))
    (hlimited : (checkRateLimit st now ip).1 = false) :
    generateSummary genFn apiKey st now text documentId ip fileName =
      (generateExtractiveSummary text, (checkRateLimit st now ip).2) ∧
    generateSummary genFn apiKey st now text documentId ip fileName =
      generateSummary genFn' apiKey st now text documentId ip fileName := by
  have key : ∀ g : Str → Option Str,
      generateSummary g apiKey st now text documentId ip fileName =
        (generateExtractiveSummary text, (checkRateLimit st now ip).2) := by
    intro g
    unfold generateSummary
    cases hc : checkRateLimit st now ip with
    | mk b st₁ =>
      have hb : b = false := by rw [hc] at hlimited; exact hlimited
      subst hb
      cases h : lookupA st.summaryCache (summaryCacheKey documentId ip) with
      | none => simp [hc, h]
      | some entry =>
        obtain ⟨s, ts⟩ := entry
        have hexp := hnocache s ts h
        simp [hc, h, hexp]
  exact ⟨key genFn, (key genFn).trans (key genFn').symm⟩

/-- A summarizer state with an exhausted quota for `ip` and no cache. -/
def c6LimitedSt : SummarizerState := { requestCounts := [(str "ip", (10, 0))] }

/-- Closed witness for C6 (amended) at a concrete exhausted-quota state. -/
theorem generateSummary_rate_limited_spec_witness :
    generateSummary sumGen true c6LimitedSt 0 (str "doc") (str "d1") (str "ip")
      none = (generateExtractiveSummary (str "doc"),
        (checkRateLimit c6LimitedSt 0 (str "ip")).2) ∧
    generateSummary sumGen true c6LimitedSt 0 (str "doc") (str "d1") (str "ip")
      none = generateSummary (fun _ => none) true c6LimitedSt 0 (str "doc")
        (str "d1") (str "ip") none := by
  exact generateSummary_rate_limited_spec sumGen (fun _ => none) true c6LimitedSt 0
    (str "doc") (str "d1") (str "ip") none
    (fun s ts h => by simp [c6LimitedSt, lookupA] at h) (by decide)

/-! ### Claims about deletion -/

theorem removeDocumentContent_documentContents (st : Storage) (u d : Str) :
    (removeDocumentContent st u d).documentContents =
      eraseA st.documentContents (contentKey u d) := by
  unfold removeDocumentContent
  by_cases h : hasA st.diskText (contentPath u d) <;> simp [h]

theorem removeDocumentContent_diskText_lookup (st : Storage) (u d : Str) :
    lookupA (removeDocumentContent st u d).diskText (contentPath u d) = none := by
  unfold removeDocumentContent
  by_cases h : hasA st.diskText (contentPath u d)
  · simp only [h, if_true]
    exact lookupA_eraseA_self _ _
  · simp only [h, Bool.false_eq_true, if_false]
    simpa [hasA, Option.isSome_iff_ne_none] using h

theorem removeDocumentContent_diskIndex (st : Storage) (u d : Str) :
    (removeDocumentContent st u d).diskIndex = st.diskIndex := by
  unfold removeDocumentContent
  by_cases h : hasA st.diskText (contentPath u d) <;> simp [h]

theorem removeDocumentContent_storeCache (st : Storage) (u d : Str) :
    (removeDocumentContent st u d).storeCache = st.storeCache := by
  unfold removeDocumentContent
  by_cases h : hasA st.diskText (contentPath u d) <;> simp [h]

theorem removeDocumentContent_userFiles (st : Storage) (u d : Str) :
    (removeDocumentContent st u d).userFiles = st.userFiles := by
  unfold removeDocumentContent
  by_cases h : hasA st.diskText (contentPath u d) <;> simp [h]

/-- After erasing the first index found for `p` from a list holding at
most one element satisfying `p`, no element satisfying `p` remains. -/
theorem find_eraseIdx_of_countP_le_one {α : Type} (p : α → Bool) :
    ∀ (l : List α) (idx : Nat), l.findIdx? p = some idx → l.countP p ≤ 1 →
      (l.eraseIdx idx).find? p = none := by
  intro l
  induction l with
  | nil => intro idx h _; simp at h
  | cons x xs ih =>
    intro idx h hcount
    by_cases hx : p x = true
    · have h0 : idx = 0 := by
        rw [List.findIdx?_cons, if_pos hx] at h
        exact (Option.some.inj h).symm
      subst h0
      rw [List.eraseIdx_cons_zero]
      rw [List.find?_eq_none]
      intro y hy hpy
      have hz : xs.countP p = 0 := by
        rw [List.countP_cons, if_pos hx] at hcount
        omega
      exact absurd hpy ((List.countP_eq_zero.mp hz) y hy)
    · rw [List.findIdx?_cons, if_neg hx, List.findIdx?_succ] at h
      cases hidx : xs.findIdx? p with
      | none => rw [hidx] at h; simp at h
      | some j =>
        rw [hidx] at h
        have hij : idx = j + 1 := by simp at h; omega
        subst hij
        have hx' : p x = false := by simpa using hx
        rw [List.eraseIdx_cons_succ]
        simp only [List.find?, hx']
        have hcx : xs.countP p ≤ 1 := by
          rw [List.countP_cons, if_neg hx] at hcount
          omega
        exact ih j hidx hcx

/-- Inversion of a successful `removeUserFile`: the shape of the
resulting state.  The extracted text is gone from both layers, the
user's file list lost the deleted entry, and the persisted chunk set
and the vector-store cache are untouched. -/
theorem removeUserFile_inv (st : Storage) (u d : Str) (st' : Storage)
    (h : removeUserFile st u d = (true, st')) :
    ∃ files idx file, lookupA st.userFiles u = some files ∧
      files.findIdx? (fun f => f.id == d) = some idx ∧
      files.get? idx = some file ∧
      st'.userFiles = setA st.userFiles u (files.eraseIdx idx) ∧
      st'.documentContents = eraseA st.documentContents (contentKey u d) ∧
      lookupA st'.diskText (contentPath u d) = none ∧
      st'.diskIndex = st.diskIndex ∧
      st'.storeCache = st.storeCache := by
  unfold removeUserFile at h
  cases h1 : lookupA st.userFiles u with
  | none => rw [h1] at h; simp at h
  | some files =>
    simp only [h1] at h
    cases h2 : files.findIdx? (fun f => f.id == d) with
    | none => simp only [h2] at h; simp at h
    | some idx =>
      simp only [h2] at h
      cases h3 : files.get? idx with
      | none => simp only [h3] at h; simp at h
      | some file =>
        simp only [h3] at h
        simp only [Prod.mk.injEq, true_and] at h
        refine ⟨files, idx, file, rfl, h2, h3, ?_, ?_, ?_, ?_, ?_⟩ <;>
          rw [← h] <;>
          cases hlp : file.localPath with
          | none =>
            simp only [hlp, removeDocumentContent_documentContents,
              removeDocumentContent_diskText_lookup, removeDocumentContent_diskIndex,
              removeDocumentContent_storeCache, removeDocumentContent_userFiles]
          | some p =>
            by_cases hp : hasA st.diskText p <;>
              simp only [hlp, hp, Bool.false_eq_true, if_true, if_false,
                removeDocumentContent_documentContents,
                removeDocumentContent_diskText_lookup, removeDocumentContent_diskIndex,
                removeDocumentContent_storeCache, removeDocumentContent_userFiles]

/-- Claim C1 (amended): when `removeUserFile` succeeds (for a file list
holding at most one entry with the document id), the extracted content
is gone from the memory cache and from the durable layer, a subsequent
`getContent` returns 404 `FILE_NOT_FOUND` and a subsequent `ask` (for a
real question, not small talk) returns 404 `DOCUMENT_NOT_FOUND` — but
the retrieval index is NOT removed: the persisted chunk set and the
vector-store cache are exactly as before the deletion. -/
theorem delete_removes_content_keeps_index
    (genFn : Str → GenAnswer) (rank : List Str → Str → List Str)
    (extractFn : Str → Str → Except Str Str) (fetchFn : Str → Except Str Str)
    (apiKey : Bool) (st st' : Storage) (u d question : Str)
    (hremove : removeUserFile st u d = (true, st'))
    (hcount : ∀ files, lookupA st.userFiles u = some files →
      files.countP (fun f => f.id == d) ≤ 1)
    (hq : trimStr question ≠ [])
    (hgreet : greetingTest (trimStr (lowerStr question)) = false)
    (hwho : whoAreYouTest (trimStr (lowerStr question)) = false) :
    lookupA st'.documentContents (contentKey u d) = none ∧
    lookupA st'.diskText (contentPath u d) = none ∧
    (getContentRoute extractFn fetchFn st' u d).1 =
      .notFound (str "FILE_NOT_FOUND") ∧
    (askRoute genFn rank extractFn fetchFn apiKey st' u d question).1 =
      .notFound (str "DOCUMENT_NOT_FOUND") ∧
    st'.diskIndex = st.diskIndex ∧ st'.storeCache = st.storeCache := by
  obtain ⟨files, idx, file, h1, h2, h3, hUF, hDC, hDT, hDI, hSC⟩ :=
    removeUserFile_inv st u d st' hremove
  have hfind : (files.eraseIdx idx).find? (fun f => f.id == d) = none :=
    find_eraseIdx_of_countP_le_one _ files idx h2 (hcount files h1)
  have hguf : getUserFile st' u d = none := by
    simp [getUserFile, hUF, lookupA_setA_self, hfind]
  have hqne : question ≠ [] := by
    intro hh
    exact hq (by rw [hh]; rfl)
  refine ⟨?_, hDT, ?_, ?_, hDI, hSC⟩
  · rw [hDC]; exact lookupA_eraseA_self _ _
  · simp [getContentRoute, hguf]
  · simp [askRoute, hq, hqne, hgreet, hwho, hguf]

/-- The file entry of the deletion scenario. -/
def c1File : FileInfo :=
  { id := str "d1", localPath := some (str "uploads/user-u1/d1.pdf") }

/-- A state in which document `d1` of user `u1` has stored bytes,
extracted content in both layers, a persisted chunk set and a cached
vector store. -/
def c1St : Storage :=
  { userFiles := [(str "u1", [c1File])],
    documentContents := [(contentKey (str "u1") (str "d1"), str "the extracted text")],
    diskText := [(contentPath (str "u1") (str "d1"), str "the extracted text"),
                 (str "uploads/user-u1/d1.pdf", str "raw bytes")],
    diskIndex := [(indexPath (str "u1") (str "d1"),
                   [str "a chunk that is long enough to be kept"])],
    storeCache := [(indexDir (str "u1") (str "d1"),
                    [str "a chunk that is long enough to be kept"])] }

/-- The state after deleting `d1`. -/
def c1After : Storage := (removeUserFile c1St (str "u1") (str "d1")).2

/-- Counterexample for C1 as stated: the delete succeeds, yet the
document's retrieval index — both the persisted `chunks.json` chunk set
and the in-process vector-store cache — is still present afterwards
(`removeUserFile` never touches `lc-index-<docId>` or the RAG cache). -/
theorem removeUserFile_keeps_index :
    (removeUserFile c1St (str "u1") (str "d1")).1 = true ∧
    lookupA ((removeUserFile c1St (str "u1") (str "d1")).2).diskIndex
        (indexPath (str "u1") (str "d1")) =
      some [str "a chunk that is long enough to be kept"] ∧
    lookupA ((removeUserFile c1St (str "u1") (str "d1")).2).storeCache
        (indexDir (str "u1") (str "d1")) =
      some [str "a chunk that is long enough to be kept"] := by
  exact ⟨by decide, by decide, by decide⟩

/-- Closed witness for C1 (amended) at the concrete deletion scenario. -/
theorem delete_removes_content_keeps_index_witness :
    lookupA c1After.documentContents (contentKey (str "u1") (str "d1")) = none ∧
    lookupA c1After.diskText (contentPath (str "u1") (str "d1")) = none ∧
    (getContentRoute (fun _ _ => .error []) fetchNone c1After (str "u1")
      (str "d1")).1 = .notFound (str "FILE_NOT_FOUND") ∧
    (askRoute (fun _ => .failed) (fun store _ => store) (fun _ _ => .error [])
      fetchNone true c1After (str "u1") (str "d1") (str "What is the deadline?")).1 =
      .notFound (str "DOCUMENT_NOT_FOUND") ∧
    c1After.diskIndex = c1St.diskIndex ∧ c1After.storeCache = c1St.storeCache := by
  refine delete_removes_content_keeps_index (fun _ => .failed) (fun store _ => store)
    (fun _ _ => .error []) fetchNone true c1St c1After (str "u1") (str "d1")
    (str "What is the deadline?") (by decide) ?_ (by decide) (by decide) (by decide)
  intro files h
  have h' : some [c1File] = some files := h
  cases Option.some.inj h'
  decide

/-! ### Claims about the extractive answerer -/

/-- Counterexample for C8 as stated: in a context that contains the
sentence `The report is due by April 5, 2024.` but where an earlier
sentence also carries a deadline keyword and a date, the scan returns
the earlier date, and the answer does not contain `April 5, 2024`. -/
theorem extractive_answer_earlier_deadline_wins :
    containsSub (str "The report is due by April 5, 2024.")
      (str "Payment is due by March 1, 2020. The report is due by April 5, 2024.") =
      true ∧
    generateExtractiveAnswer (str "What is the deadline?")
      (str "Payment is due by March 1, 2020. The report is due by April 5, 2024.") =
      str "The deadline appears to be: March 1, 2020. Source: \"Payment is due by March 1, 2020.\"" ∧
    containsSub (str "April 5, 2024")
      (generateExtractiveAnswer (str "What is the deadline?")
        (str "Payment is due by March 1, 2020. The report is due by April 5, 2024.")) =
      false := by
  exact ⟨by decide, by decide, by decide⟩

/-- Claim C8 (amended): for the context consisting of the sentence
`The report is due by April 5, 2024.` (the first deadline-keyword
sentence whose neighbourhood contains a date), the extractive answer to
`What is the deadline?` contains `April 5, 2024` and quotes the source
sentence. -/
theorem extractive_answer_deadline_quoted :
    generateExtractiveAnswer (str "What is the deadline?")
      (str "The report is due by April 5, 2024.") =
      str "The deadline appears to be: April 5, 2024. Source: \"The report is due by April 5, 2024.\"" ∧
    containsSub (str "April 5, 2024")
      (generateExtractiveAnswer (str "What is the deadline?")
        (str "The report is due by April 5, 2024.")) = true ∧
    containsSub (str "\"The report is due by April 5, 2024.\"")
      (generateExtractiveAnswer (str "What is the deadline?")
        (str "The report is due by April 5, 2024.")) = true := by
  exact ⟨by decide, by decide, by decide⟩


/-! ### Word-count lemmas for the summary word budget (C9) -/

theorem jsIsWs_space : jsIsWs ' ' = true := rfl

theorem wcAux_append_allNonws (w : Str) (hw : ∀ c ∈ w, jsIsWs c = false) :
    (∀ x, wcAux true (w ++ x) = wcAux true x) ∧
    (w ≠ [] → ∀ x, wcAux false (w ++ x) = 1 + wcAux true x) := by
  induction w with
  | nil => exact ⟨fun x => rfl, fun h => absurd rfl h⟩
  | cons c cs ih =>
    have hc : jsIsWs c = false := hw c (List.mem_cons_self _ _)
    have ih' := ih (fun d hd => hw d (List.mem_cons_of_mem _ hd))
    constructor
    · intro x
      simp [wcAux, hc, ih'.1 x]
    · intro _ x
      simp [wcAux, hc, ih'.1 x]

theorem wordCount_allNonws_le_one (w : Str) (hw : ∀ c ∈ w, jsIsWs c = false) :
    wordCount w ≤ 1 := by
  cases w with
  | nil => simp [wordCount, wcAux]
  | cons c cs =>
    have h := (wcAux_append_allNonws (c :: cs) hw).2 (by simp) []
    rw [List.append_nil] at h
    rw [wordCount, h]
    simp [wcAux]

theorem wordCount_joinWords_le (ws : List Str)
    (h : ∀ w ∈ ws, ∀ c ∈ w, jsIsWs c = false) :
    wordCount (joinWords ws) ≤ ws.length := by
  induction ws with
  | nil => simp [joinWords, wordCount, wcAux]
  | cons w rest ih =>
    cases rest with
    | nil =>
      simpa [joinWords] using
        wordCount_allNonws_le_one w (h w (List.mem_cons_self _ _))
    | cons w' rest' =>
      have hw := h w (List.mem_cons_self _ _)
      have hrest := fun v hv => h v (List.mem_cons_of_mem _ hv)
      have ihr := ih hrest
      show wordCount (w ++ ' ' :: joinWords (w' :: rest')) ≤ (w' :: rest').length + 1
      by_cases hwe : w = []
      · subst hwe
        have hz : wordCount (([] : Str) ++ ' ' :: joinWords (w' :: rest')) =
            wordCount (joinWords (w' :: rest')) := by
          simp [wordCount, wcAux, jsIsWs_space]
        rw [hz]
        rw [wordCount] at ihr ⊢
        omega
      · rw [wordCount,
          (wcAux_append_allNonws w hw).2 hwe (' ' :: joinWords (w' :: rest'))]
        have hsp : wcAux true (' ' :: joinWords (w' :: rest')) =
            wcAux false (joinWords (w' :: rest')) := by simp [wcAux, jsIsWs_space]
        rw [hsp]
        rw [wordCount] at ihr
        simp only [List.length_cons] at ihr ⊢
        omega

theorem wcAux_true_le_false (l : Str) : wcAux true l ≤ wcAux false l := by
  induction l with
  | nil => simp [wcAux]
  | cons c cs ih =>
    by_cases hc : jsIsWs c = true <;> simp [wcAux, hc]

theorem isClosePunct_nonws (c : Char) (h : isClosePunct c = true) :
    jsIsWs c = false := by
  simp only [isClosePunct, Bool.or_eq_true, beq_iff_eq] at h
  rcases h with ((((h | h) | h) | h) | h) | h <;> subst h <;> rfl

theorem wcAux_mergePunct_le (l : Str) : ∀ b, wcAux b (mergePunct l) ≤ wcAux b l := by
  induction l using mergePunct.induct with
  | case1 => intro b; simp [mergePunct]
  | case2 a => intro b; simp [mergePunct]
  | case3 a b' rest hcond ih =>
    intro b
    obtain ⟨ha, hb⟩ := by simpa using hcond
    have hbnw : jsIsWs b' = false := isClosePunct_nonws b' hb
    rw [show mergePunct (a :: b' :: rest) = b' :: mergePunct rest by
      rw [mergePunct]; simp [ha, hb]]
    cases b with
    | false =>
      simp only [wcAux, ha, hbnw, Bool.false_eq_true, if_false, if_true]
      have := ih true
      omega
    | true =>
      simp only [wcAux, ha, hbnw, Bool.false_eq_true, if_false, if_true]
      have h1 := ih true
      have h2 := wcAux_true_le_false rest
      omega
  | case4 a b' rest hcond ih =>
    intro b
    rw [show mergePunct (a :: b' :: rest) = a :: mergePunct (b' :: rest) by
      rw [mergePunct]; split <;> simp_all]
    by_cases ha : jsIsWs a = true
    · simp only [wcAux, ha, if_true]
      exact ih false
    · simp only [wcAux, ha, Bool.false_eq_true, if_false]
      cases b with
      | false => simpa using ih true
      | true => simpa using ih true

theorem wcAux_collapse (l : Str) :
    (∀ b, wcAux b (collapseRunsGo jsIsWs ' ' false l) = wcAux b l) ∧
    (wcAux false (collapseRunsGo jsIsWs ' ' true l) = wcAux false l) := by
  induction l with
  | nil => exact ⟨fun b => rfl, rfl⟩
  | cons c cs ih =>
    by_cases hc : jsIsWs c = true
    · constructor
      · intro b
        rw [show collapseRunsGo jsIsWs ' ' false (c :: cs) =
            ' ' :: collapseRunsGo jsIsWs ' ' true cs by
          simp [collapseRunsGo, hc]]
        rw [show wcAux b (' ' :: collapseRunsGo jsIsWs ' ' true cs) =
            wcAux false (collapseRunsGo jsIsWs ' ' true cs) by
          simp [wcAux, jsIsWs_space]]
        rw [ih.2]
        simp [wcAux, hc]
      · rw [show collapseRunsGo jsIsWs ' ' true (c :: cs) =
            collapseRunsGo jsIsWs ' ' true cs by simp [collapseRunsGo, hc]]
        rw [ih.2]
        simp [wcAux, hc]
    · have hkey : ∀ b₀ : Bool, collapseRunsGo jsIsWs ' ' b₀ (c :: cs) =
          c :: collapseRunsGo jsIsWs ' ' false cs := by
        intro b₀; simp [collapseRunsGo, hc]
      constructor
      · intro b
        rw [hkey false]
        cases b with
        | false => simp [wcAux, hc, ih.1]
        | true => simp [wcAux, hc, ih.1]
      · rw [hkey true]
        simp [wcAux, hc, ih.1]

/-! ### Last-character and token lemmas (C9) -/

theorem mergePunct_ne_nil (l : Str) (h : l ≠ []) : mergePunct l ≠ [] := by
  cases l with
  | nil => exact absurd rfl h
  | cons a t =>
    cases t with
    | nil => simp [mergePunct]
    | cons b rest =>
      rw [mergePunct]
      split <;> simp

theorem getLast?_mergePunct (l : Str) :
    ∀ c, l.getLast? = some c → jsIsWs c = false →
      (mergePunct l).getLast? = some c := by
  induction l using mergePunct.induct with
  | case1 => intro c h _; simp at h
  | case2 a =>
    intro c h _
    simpa [mergePunct] using h
  | case3 a b' rest hcond ih =>
    intro c h hc
    obtain ⟨ha, hb⟩ := by simpa using hcond
    rw [show mergePunct (a :: b' :: rest) = b' :: mergePunct rest by
      rw [mergePunct]; simp [ha, hb]]
    cases rest with
    | nil =>
      have hbc : b' = c := by simpa using h
      subst hbc
      simp [mergePunct]
    | cons x t =>
      have hlast : (x :: t).getLast? = some c := by
        rw [List.getLast?_cons_cons, List.getLast?_cons_cons] at h
        exact h
      have hmp := ih c hlast hc
      have hne := mergePunct_ne_nil (x :: t) (by simp)
      cases hm : mergePunct (x :: t) with
      | nil => exact absurd hm hne
      | cons y ys =>
        rw [hm] at hmp
        rw [List.getLast?_cons_cons]
        exact hmp
  | case4 a b' rest hcond ih =>
    intro c h hc
    rw [show mergePunct (a :: b' :: rest) = a :: mergePunct (b' :: rest) by
      rw [mergePunct]; split <;> simp_all]
    have hlast : (b' :: rest).getLast? = some c := by
      rw [List.getLast?_cons_cons] at h
      exact h
    have hmp := ih c hlast hc
    have hne := mergePunct_ne_nil (b' :: rest) (by simp)
    cases hm : mergePunct (b' :: rest) with
    | nil => exact absurd hm hne
    | cons y ys =>
      rw [hm] at hmp
      rw [List.getLast?_cons_cons]
      exact hmp

theorem getLast?_collapse (l : Str) :
    ∀ (b : Bool) (c : Char), l.getLast? = some c → jsIsWs c = false →
      (collapseRunsGo jsIsWs ' ' b l).getLast? = some c := by
  induction l with
  | nil => intro b c h _; simp at h
  | cons a t ih =>
    intro b c h hc
    cases t with
    | nil =>
      have hac : a = c := by simpa using h
      subst hac
      simp [collapseRunsGo, hc]
    | cons x t' =>
      have hlast : (x :: t').getLast? = some c := by
        rw [List.getLast?_cons_cons] at h
        exact h
      have hsub : ∀ b' : Bool,
          (collapseRunsGo jsIsWs ' ' b' (x :: t')).getLast? = some c :=
        fun b' => ih b' c hlast hc
      have hsubne : ∀ b' : Bool, collapseRunsGo jsIsWs ' ' b' (x :: t') ≠ [] := by
        intro b' hnil
        have := hsub b'
        rw [hnil] at this
        simp at this
      by_cases hwa : jsIsWs a = true
      · rw [show collapseRunsGo jsIsWs ' ' b (a :: x :: t') =
            if b then collapseRunsGo jsIsWs ' ' true (x :: t')
            else ' ' :: collapseRunsGo jsIsWs ' ' true (x :: t') by
          simp [collapseRunsGo, hwa]]
        cases b with
        | true => simpa using hsub true
        | false =>
          simp only [Bool.false_eq_true, if_false]
          cases hm : collapseRunsGo jsIsWs ' ' true (x :: t') with
          | nil => exact absurd hm (hsubne true)
          | cons y ys =>
            rw [List.getLast?_cons_cons]
            have h5 := hsub true
            rw [hm] at h5
            exact h5
      · rw [show collapseRunsGo jsIsWs ' ' b (a :: x :: t') =
            a :: collapseRunsGo jsIsWs ' ' false (x :: t') by
          simp [collapseRunsGo, hwa]]
        cases hm : collapseRunsGo jsIsWs ' ' false (x :: t') with
        | nil => exact absurd hm (hsubne false)
        | cons y ys =>
          rw [List.getLast?_cons_cons]
          have h5 := hsub false
          rw [hm] at h5
          exact h5

theorem joinWords_getLast?_nonws (ws : List Str) (hne : ws ≠ [])
    (h : ∀ w ∈ ws, w ≠ [] ∧ ∀ c ∈ w, jsIsWs c = false) :
    ∃ c, (joinWords ws).getLast? = some c ∧ jsIsWs c = false := by
  induction ws with
  | nil => exact absurd rfl hne
  | cons w rest ih =>
    cases rest with
    | nil =>
      obtain ⟨hwne, hwc⟩ := h w (List.mem_cons_self _ _)
      cases hl : w.getLast? with
      | none => exact absurd (List.getLast?_eq_none_iff.mp hl) hwne
      | some c =>
        exact ⟨c, by simpa [joinWords] using hl,
          hwc c (List.mem_of_mem_getLast? hl)⟩
    | cons w' rest' =>
      obtain ⟨c, hcl, hcw⟩ := ih (by simp)
        (fun v hv => h v (List.mem_cons_of_mem _ hv))
      refine ⟨c, ?_, hcw⟩
      show (w ++ ' ' :: joinWords (w' :: rest')).getLast? = some c
      rw [List.getLast?_append]
      cases hm : joinWords (w' :: rest') with
      | nil => rw [hm] at hcl; simp at hcl
      | cons y ys =>
        rw [hm] at hcl
        rw [List.getLast?_cons_cons, hcl]
        rfl

theorem wcAux_cons (b : Bool) (c : Char) (cs : Str) :
    wcAux b (c :: cs) =
      if jsIsWs c = true then wcAux false cs
      else if b then wcAux true cs else 1 + wcAux true cs := rfl

theorem wcAux_concat_nonws (l : Str) :
    ∀ (c₀ ch : Char), l.getLast? = some c₀ → jsIsWs c₀ = false →
      jsIsWs ch = false → ∀ b, wcAux b (l ++ [ch]) = wcAux b l := by
  induction l with
  | nil => intro c₀ ch h _ _ _; simp at h
  | cons a t ih =>
    intro c₀ ch h h0 hch b
    cases t with
    | nil =>
      have hac : a = c₀ := by simpa using h
      subst hac
      cases b <;> simp [wcAux, h0, hch]
    | cons x t' =>
      have hlast : (x :: t').getLast? = some c₀ := by
        rw [List.getLast?_cons_cons] at h
        exact h
      have hIH := ih c₀ ch hlast h0 hch
      rw [List.cons_append]
      rw [wcAux_cons b a ((x :: t') ++ [ch]), wcAux_cons b a (x :: t')]
      by_cases hwa : jsIsWs a = true
      · rw [if_pos hwa, if_pos hwa, hIH false]
      · rw [if_neg hwa, if_neg hwa, hIH true]

/-! ### Budget-loop lemmas (C9) -/

theorem pushWords_length_le (t : Nat) :
    ∀ (ws acc : List Str), acc.length ≤ t → (pushWords t acc ws).length ≤ t := by
  intro ws
  induction ws with
  | nil => intro acc h; simpa [pushWords] using h
  | cons w rest ih =>
    intro acc h
    rw [pushWords]
    by_cases hf : t ≤ acc.length
    · simpa [hf] using h
    · rw [if_neg hf]
      exact ih (acc ++ [w]) (by simp; omega)

theorem budgetWords_length_le (t : Nat) :
    ∀ (ss acc : List Str), acc.length ≤ t → (budgetWords t acc ss).length ≤ t := by
  intro ss
  induction ss with
  | nil => intro acc h; simpa [budgetWords] using h
  | cons s rest ih =>
    intro acc h
    rw [budgetWords]
    have hp := pushWords_length_le t (jsSplitWs s) acc h
    by_cases hf : t ≤ (pushWords t acc (jsSplitWs s)).length
    · simpa [hf] using hp
    · rw [if_neg hf]
      exact ih _ hp

theorem pushWords_mem (t : Nat) :
    ∀ (ws acc : List Str) (w : Str), w ∈ pushWords t acc ws → w ∈ acc ∨ w ∈ ws := by
  intro ws
  induction ws with
  | nil => intro acc w h; exact Or.inl (by simpa [pushWords] using h)
  | cons v rest ih =>
    intro acc w h
    rw [pushWords] at h
    by_cases hf : t ≤ acc.length
    · rw [if_pos hf] at h
      exact Or.inl h
    · rw [if_neg hf] at h
      rcases ih (acc ++ [v]) w h with hm | hm
      · rcases List.mem_append.mp hm with hm' | hm'
        · exact Or.inl hm'
        · exact Or.inr (by
            rw [List.mem_singleton.mp hm']
            exact List.mem_cons_self _ _)
      · exact Or.inr (List.mem_cons_of_mem _ hm)

theorem budgetWords_mem (t : Nat) :
    ∀ (ss acc : List Str) (w : Str), w ∈ budgetWords t acc ss →
      w ∈ acc ∨ ∃ s ∈ ss, w ∈ jsSplitWs s := by
  intro ss
  induction ss with
  | nil => intro acc w h; exact Or.inl (by simpa [budgetWords] using h)
  | cons s rest ih =>
    intro acc w h
    rw [budgetWords] at h
    have hstep : w ∈ pushWords t acc (jsSplitWs s) →
        w ∈ acc ∨ ∃ s' ∈ s :: rest, w ∈ jsSplitWs s' := by
      intro hp
      rcases pushWords_mem t (jsSplitWs s) acc w hp with hm | hm
      · exact Or.inl hm
      · exact Or.inr ⟨s, List.mem_cons_self _ _, hm⟩
    by_cases hf : t ≤ (pushWords t acc (jsSplitWs s)).length
    · rw [if_pos hf] at h
      exact hstep h
    · rw [if_neg hf] at h
      rcases ih (pushWords t acc (jsSplitWs s)) w h with hm | hm
      · exact hstep hm
      · obtain ⟨s', hs', hw⟩ := hm
        exact Or.inr ⟨s', List.mem_cons_of_mem _ hs', hw⟩

/-! ### Token lemmas for the whitespace splitter (C9) -/

theorem jsSplitWsGo_allNonws :
    ∀ (l : Str) (b : Bool) (cur : Str), (∀ c ∈ cur, jsIsWs c = false) →
      ∀ w ∈ jsSplitWsGo b cur l, ∀ c ∈ w, jsIsWs c = false := by
  intro l
  induction l with
  | nil =>
    intro b cur hcur w hw c hc
    rw [jsSplitWsGo] at hw
    have hwc : w = cur.reverse := by simpa using hw
    subst hwc
    exact hcur c (List.mem_reverse.mp hc)
  | cons a t ih =>
    intro b cur hcur w hw c hc
    rw [jsSplitWsGo] at hw
    by_cases hwa : jsIsWs a = true
    · rw [if_pos hwa] at hw
      cases b with
      | true => exact ih true cur hcur w (by simpa using hw) c hc
      | false =>
        simp only [Bool.false_eq_true, if_false] at hw
        rcases List.mem_cons.mp hw with hwc | hw'
        · subst hwc
          exact hcur c (List.mem_reverse.mp hc)
        · exact ih true [] (by simp) w hw' c hc
    · rw [if_neg hwa] at hw
      refine ih false (a :: cur) ?_ w hw c hc
      intro d hd
      rcases List.mem_cons.mp hd with hda | hdc
      · subst hda; simpa using hwa
      · exact hcur d hdc

theorem jsSplitWsGo_nonempty :
    ∀ (l : Str) (b : Bool) (cur : Str),
      (b = false → cur ≠ [] ∨ (∀ c, l.head? = some c → jsIsWs c = false)) →
      (∀ c, l.getLast? = some c → jsIsWs c = false) →
      (l = [] → cur ≠ []) →
      ∀ w ∈ jsSplitWsGo b cur l, w ≠ [] := by
  intro l
  induction l with
  | nil =>
    intro b cur _ _ h3 w hw
    rw [jsSplitWsGo] at hw
    have hwc : w = cur.reverse := by simpa using hw
    subst hwc
    simpa using h3 rfl
  | cons a t ih =>
    intro b cur h1 h2 _ w hw
    rw [jsSplitWsGo] at hw
    by_cases hwa : jsIsWs a = true
    · have htne : t ≠ [] := by
        intro ht
        subst ht
        have h2a := h2 a (by simp)
        rw [h2a] at hwa
        exact Bool.false_ne_true hwa
      have h2t : ∀ c, t.getLast? = some c → jsIsWs c = false := by
        intro c hcl
        refine h2 c ?_
        cases t with
        | nil => exact absurd rfl htne
        | cons x t' => rw [List.getLast?_cons_cons]; exact hcl
      rw [if_pos hwa] at hw
      cases b with
      | true =>
        exact ih true cur (by simp) h2t (fun ht => absurd ht htne) w hw
      | false =>
        simp only [Bool.false_eq_true, if_false] at hw
        have hcurne : cur ≠ [] := by
          rcases h1 rfl with hc | hh
          · exact hc
          · have hha := hh a (by simp)
            rw [hha] at hwa
            exact absurd hwa Bool.false_ne_true
        rcases List.mem_cons.mp hw with hwc | hw'
        · subst hwc
          simpa using hcurne
        · exact ih true [] (by simp) h2t (fun ht => absurd ht htne) w hw'
    · rw [if_neg hwa] at hw
      have h2t : ∀ c, t.getLast? = some c → jsIsWs c = false := by
        intro c hcl
        refine h2 c ?_
        cases t with
        | nil => simp at hcl
        | cons x t' => rw [List.getLast?_cons_cons]; exact hcl
      exact ih false (a :: cur) (fun _ => Or.inl (by simp)) h2t
        (fun _ => by simp) w hw

/-! ### Trim lemmas (C9) -/

theorem head?_dropWhile_nonp {α : Type} (p : α → Bool) :
    ∀ (l : List α) (c : α), (l.dropWhile p).head? = some c → p c = false := by
  intro l
  induction l with
  | nil => intro c h; simp at h
  | cons a t ih =>
    intro c h
    by_cases hp : p a = true
    · rw [List.dropWhile_cons_of_pos hp] at h
      exact ih c h
    · rw [List.dropWhile_cons_of_neg hp] at h
      have hac : a = c := by simpa using h
      subst hac
      simpa using hp

theorem getLast?_dropWhile_of_ne_nil {α : Type} (p : α → Bool) :
    ∀ (l : List α), l.dropWhile p ≠ [] →
      (l.dropWhile p).getLast? = l.getLast? := by
  intro l
  induction l with
  | nil => intro h; simp at h
  | cons a t ih =>
    intro h
    by_cases hp : p a = true
    · rw [List.dropWhile_cons_of_pos hp] at h ⊢
      have htne : t ≠ [] := by
        intro ht; subst ht; simp at h
      cases t with
      | nil => exact absurd rfl htne
      | cons x t' => rw [List.getLast?_cons_cons]; exact ih h
    · rw [List.dropWhile_cons_of_neg hp]

theorem trimStr_getLast?_nonws (x : Str) :
    ∀ c, (trimStr x).getLast? = some c → jsIsWs c = false := by
  intro c h
  rw [trimStr, List.getLast?_reverse] at h
  exact head?_dropWhile_nonp jsIsWs _ c h

theorem trimStr_head?_nonws (x : Str) :
    ∀ c, (trimStr x).head? = some c → jsIsWs c = false := by
  intro c h
  rw [trimStr, List.head?_reverse] at h
  have hne : (x.dropWhile jsIsWs).reverse.dropWhile jsIsWs ≠ [] := by
    intro hnil
    rw [hnil] at h
    simp at h
  rw [getLast?_dropWhile_of_ne_nil jsIsWs _ hne, List.getLast?_reverse] at h
  exact head?_dropWhile_nonp jsIsWs _ c h

/-! ### Selection-stage membership lemmas (C9) -/

theorem insertDescScore_mem (y : ScoredSentence) :
    ∀ (l : List ScoredSentence) (x : ScoredSentence),
      x ∈ insertDescScore y l → x = y ∨ x ∈ l := by
  intro l
  induction l with
  | nil => intro x h; exact Or.inl (by simpa [insertDescScore] using h)
  | cons z zs ih =>
    intro x h
    rw [insertDescScore] at h
    by_cases hz : z.score < y.score
    · rw [if_pos hz] at h
      rcases List.mem_cons.mp h with h' | h'
      · exact Or.inl h'
      · exact Or.inr h'
    · rw [if_neg hz] at h
      rcases List.mem_cons.mp h with h' | h'
      · exact Or.inr (h' ▸ List.mem_cons_self _ _)
      · rcases ih x h' with h'' | h''
        · exact Or.inl h''
        · exact Or.inr (List.mem_cons_of_mem _ h'')

theorem sortDescScore_mem (l : List ScoredSentence) (x : ScoredSentence)
    (h : x ∈ sortDescScore l) : x ∈ l := by
  have aux : ∀ (L acc : List ScoredSentence) (x : ScoredSentence),
      x ∈ List.foldl (fun a e => insertDescScore e a) acc L → x ∈ acc ∨ x ∈ L := by
    intro L
    induction L with
    | nil => intro acc x h; exact Or.inl h
    | cons e es ih =>
      intro acc x h
      rcases ih (insertDescScore e acc) x h with hm | hm
      · rcases insertDescScore_mem e acc x hm with h' | h'
        · exact Or.inr (h' ▸ List.mem_cons_self _ _)
        · exact Or.inl h'
      · exact Or.inr (List.mem_cons_of_mem _ hm)
  rcases aux l [] x h with hm | hm
  · simp at hm
  · exact hm

theorem selectBuckets_mem (scored : List ScoredSentence) (total bc bs : Nat)
    (s : Str) (h : s ∈ selectBuckets scored total bc bs) :
    ∃ x ∈ scored, s = x.s := by
  rw [selectBuckets] at h
  have aux : ∀ (L : List Nat) (acc : List Str),
      (∀ y ∈ acc, ∃ x ∈ scored, y = x.s) →
      ∀ y ∈ List.foldl (fun selected b =>
        if total ≤ b * bs then selected
        else
          match sortDescScore ((scored.drop (b * bs)).take
            (min total (b * bs + bs) - b * bs)) with
          | [] => selected
          | top :: _ => selected ++ [top.s]) acc L,
        ∃ x ∈ scored, y = x.s := by
    intro L
    induction L with
    | nil => intro acc hacc y hy; exact hacc y hy
    | cons b bs' ih =>
      intro acc hacc y hy
      refine ih _ ?_ y hy
      intro z hz
      simp only [] at hz
      by_cases hb : total ≤ b * bs
      · rw [if_pos hb] at hz
        exact hacc z hz
      · rw [if_neg hb] at hz
        cases hsort : sortDescScore ((scored.drop (b * bs)).take
            (min total (b * bs + bs) - b * bs)) with
        | nil =>
          rw [hsort] at hz
          exact hacc z hz
        | cons top rest =>
          rw [hsort] at hz
          rcases List.mem_append.mp hz with hz' | hz'
          · exact hacc z hz'
          · have hzt : z = top.s := by simpa using hz'
            have htop : top ∈ scored := by
              have htop' : top ∈ sortDescScore ((scored.drop (b * bs)).take
                  (min total (b * bs + bs) - b * bs)) := by
                rw [hsort]; exact List.mem_cons_self _ _
              exact List.mem_of_mem_drop
                (List.mem_of_mem_take (sortDescScore_mem _ _ htop'))
            exact ⟨top, htop, hzt⟩
  exact aux (List.range bc) [] (by simp) s h

theorem appendGlobalTop_mem (P : Str → Prop) :
    ∀ (gl acc : List Str) (cap : Nat) (s : Str),
      (∀ y ∈ acc, P y) → (∀ y ∈ gl, P y) →
      s ∈ appendGlobalTop cap acc gl → P s := by
  intro gl
  induction gl with
  | nil => intro acc cap s hacc _ h; exact hacc s (by simpa [appendGlobalTop] using h)
  | cons g gs ih =>
    intro acc cap s hacc hgl h
    rw [appendGlobalTop] at h
    have hg : P g := hgl g (List.mem_cons_self _ _)
    have hgs : ∀ y ∈ gs, P y := fun y hy => hgl y (List.mem_cons_of_mem _ hy)
    have hacc' : ∀ y ∈ acc ++ [g], P y := by
      intro y hy
      rcases List.mem_append.mp hy with hy' | hy'
      · exact hacc y hy'
      · exact (List.mem_singleton.mp hy') ▸ hg
    by_cases hc : acc.contains g = true
    · rw [if_pos hc] at h
      exact ih acc cap s hacc hgs h
    · rw [if_neg hc] at h
      by_cases hl : cap ≤ (acc ++ [g]).length
      · rw [if_pos hl] at h
        exact hacc' s h
      · rw [if_neg hl] at h
        exact ih (acc ++ [g]) cap s hacc' hgs h

theorem scoreSentence_s (total idx : Nat) (s : Str) :
    (scoreSentence total idx s).s = s := rfl

theorem summarySelected_mem (cleaned : Str) (s : Str)
    (h : s ∈ summarySelected cleaned) : s ∈ summarySentences cleaned := by
  rw [summarySelected] at h
  have hscored : ∀ x ∈ (summarySentences cleaned).enum.map
      (fun p => scoreSentence (summarySentences cleaned).length p.1 p.2),
      x.s ∈ summarySentences cleaned := by
    intro x hx
    obtain ⟨p, hp, hpx⟩ := List.mem_map.mp hx
    rw [← hpx, scoreSentence_s]
    have hsnd : p.2 ∈ List.map Prod.snd (summarySentences cleaned).enum :=
      List.mem_map_of_mem Prod.snd hp
    rwa [List.enum_map_snd] at hsnd
  refine appendGlobalTop_mem (fun y => y ∈ summarySentences cleaned) _ _ _ s
    ?_ ?_ h
  · intro y hy
    obtain ⟨x, hx, hyx⟩ := selectBuckets_mem _ _ _ _ y hy
    exact hyx ▸ hscored x hx
  · intro y hy
    obtain ⟨x, hx, hyx⟩ := List.mem_map.mp hy
    exact hyx ▸ hscored x (sortDescScore_mem _ _ hx)

/-- The composition stage of the extractive summary: given sentences
whose whitespace tokens are nonempty and whitespace-free, the result is
within the 180-word budget and ends with terminal punctuation. -/
theorem composeSummary_spec (selected : List Str)
    (h : ∀ s ∈ selected, ∀ w ∈ jsSplitWs s, w ≠ [] ∧ ∀ c ∈ w, jsIsWs c = false) :
    wordCount (composeSummary 180 selected) ≤ 180 ∧
    endsWithTerm (composeSummary 180 selected) = true := by
  have hprops : ∀ w ∈ budgetWords 180 [] selected,
      w ≠ [] ∧ ∀ c ∈ w, jsIsWs c = false := by
    intro w hw
    rcases budgetWords_mem 180 selected [] w hw with hm | ⟨s, hs, hws⟩
    · simp at hm
    · exact h s hs w hws
  have hlen : (budgetWords 180 [] selected).length ≤ 180 :=
    budgetWords_length_le 180 selected [] (by simp)
  have hjoin : wordCount (joinWords (budgetWords 180 [] selected)) ≤ 180 :=
    le_trans (wordCount_joinWords_le _ (fun w hw => (hprops w hw).2)) hlen
  have hpar : wordCount
      (mergePunct (collapseWs (joinWords (budgetWords 180 [] selected)))) ≤ 180 := by
    have h1 : wordCount
        (mergePunct (collapseWs (joinWords (budgetWords 180 [] selected)))) ≤
        wordCount (collapseWs (joinWords (budgetWords 180 [] selected))) :=
      wcAux_mergePunct_le _ false
    have h2 : wordCount (collapseWs (joinWords (budgetWords 180 [] selected))) =
        wordCount (joinWords (budgetWords 180 [] selected)) :=
      (wcAux_collapse _).1 false
    omega
  simp only [composeSummary]
  by_cases hterm : endsWithTerm
      (mergePunct (collapseWs (joinWords (budgetWords 180 [] selected)))) = true
  · rw [if_pos hterm]
    exact ⟨hpar, hterm⟩
  · rw [if_neg hterm]
    constructor
    · by_cases hW : budgetWords 180 [] selected = []
      · rw [hW]
        decide
      · obtain ⟨c, hcl, hcnw⟩ := joinWords_getLast?_nonws _ hW hprops
        have hc2 := getLast?_collapse _ false c hcl hcnw
        have hc3 := getLast?_mergePunct _ c hc2 hcnw
        have hconcat := wcAux_concat_nonws _ c '.' hc3 hcnw (by decide) false
        show wcAux false
          (mergePunct (collapseWs (joinWords (budgetWords 180 [] selected))) ++ ['.']) ≤ 180
        rw [show collapseWs (joinWords (budgetWords 180 [] selected)) =
          collapseRunsGo jsIsWs ' ' false (joinWords (budgetWords 180 [] selected)) from rfl]
        rw [hconcat]
        exact hpar
    · rw [endsWithTerm, List.getLast?_concat]
      rfl

/-- Claim C9: for every input text, `generateExtractiveSummary` returns
a string of at most the 180-word budget (the appended terminal period,
when any, attaches to the last word) that ends with `.`, `!` or `?`; on
blank input it returns the fixed neutral message.  The function is
total, so no input can raise an exception (the source's `catch` branch,
which would also return the neutral message, is unreachable). -/
theorem generateExtractiveSummary_spec (text : Str) :
    wordCount (generateExtractiveSummary text) ≤ 180 ∧
    endsWithTerm (generateExtractiveSummary text) = true ∧
    (trimStr (collapseNl (collapseWs text)) = [] →
      generateExtractiveSummary text = neutralSummaryMsg) := by
  by_cases hb : trimStr (collapseNl (collapseWs text)) = []
  · have hres : generateExtractiveSummary text = neutralSummaryMsg := by
      simp [generateExtractiveSummary, hb]
    rw [hres]
    exact ⟨by decide, by decide, fun _ => rfl⟩
  · have hres : generateExtractiveSummary text =
        composeSummary 180 (summarySelected (trimStr (collapseNl (collapseWs text)))) := by
      simp [generateExtractiveSummary, hb]
    have hsel : ∀ s ∈ summarySelected (trimStr (collapseNl (collapseWs text))),
        ∀ w ∈ jsSplitWs s, w ≠ [] ∧ ∀ c ∈ w, jsIsWs c = false := by
      intro s hs w hw
      have hsent := summarySelected_mem _ s hs
      rw [summarySentences] at hsent
      obtain ⟨hmem, hlenb⟩ := List.mem_filter.mp hsent
      have hlen' : 20 < s.length := of_decide_eq_true hlenb
      obtain ⟨s₀, _, hs₀⟩ := List.mem_map.mp hmem
      rw [jsSplitWs] at hw
      constructor
      · refine jsSplitWsGo_nonempty s false [] ?_ ?_ ?_ w hw
        · intro _
          right
          intro c hc
          rw [← hs₀] at hc
          exact trimStr_head?_nonws s₀ c hc
        · intro c hc
          rw [← hs₀] at hc
          exact trimStr_getLast?_nonws s₀ c hc
        · intro hse
          rw [hse] at hlen'
          simp at hlen'
      · exact jsSplitWsGo_allNonws s false [] (by simp) w hw
    rw [hres]
    have hc := composeSummary_spec _ hsel
    exact ⟨hc.1, hc.2, fun hcontr => absurd hcontr hb⟩

/-- Closed witness for C9 at the blank input. -/
theorem generateExtractiveSummary_spec_witness :
    wordCount (generateExtractiveSummary []) ≤ 180 ∧
    endsWithTerm (generateExtractiveSummary []) = true ∧
    generateExtractiveSummary [] = neutralSummaryMsg :=
  ⟨(generateExtractiveSummary_spec []).1, (generateExtractiveSummary_spec []).2.1,
   (generateExtractiveSummary_spec []).2.2 (by decide)⟩

end LegalLens
